import Mathlib

/-!
Verification development for the F1 calendar sync service
(`f1_calendar_sync.py`).  The Python source is shallowly embedded:

* `PyDateTime` models `datetime.datetime` values (naive or offset-aware,
  the offset kept in minutes).
* `parse_f1_datetime` models the function of the same name: the date and
  time strings are concatenated with `"T"`, every literal `"Z"` is
  rewritten to `"+00:00"`, and the result is parsed following
  `datetime.fromisoformat` (for the dashed `YYYY-MM-DDTHH:MM[:SS][±HH:MM]`
  shapes exercised by this program); any failure yields `none`.
* `format_session_title`, `format_session_description` and the location
  string mirror the formatting helpers, including Python's
  `str.rsplit(" ", 1)[0]`, `str.title()` and `str.strip(", ")` semantics.
* The Google Calendar store is modelled by `Store` (a list of events plus
  an id counter).  `find_existing_event` models the same-day lookup
  (the `timeMin`/`timeMax` window of the `events().list` call) and
  `add_or_update_event` the create-or-replace call.  Remote `HttpError`
  failures are environment behaviour and are injected through explicit
  boolean flags; the uncaught `ValueError` raised by
  `start_time.replace(hour=start_time.hour + 2)` when `hour + 2 > 23`
  is modelled by `Except.error`.
* `sync_f1_schedule` models the main loop over races and the four session
  types, producing the run summary, the final store, and the list of
  per-candidate event-id outcomes.
-/

/-- Model of a Python `datetime.datetime`: calendar fields plus an optional
UTC offset in minutes (`none` = naive datetime). -/
structure PyDateTime where
  year : Nat
  month : Nat
  day : Nat
  hour : Nat
  minute : Nat
  second : Nat
  tz : Option Int
deriving DecidableEq, Repr

/-- Value of a decimal digit character, `none` on other characters. -/
def digitVal? (c : Char) : Option Nat :=
  if c.isDigit then some (c.toNat - 48) else none

/-- Read two decimal digits from the front of a character list. -/
def parse2 : List Char → Option (Nat × List Char)
  | a :: b :: rest =>
    match digitVal? a, digitVal? b with
    | some x, some y => some (10 * x + y, rest)
    | _, _ => none
  | _ => none

/-- Read four decimal digits from the front of a character list. -/
def parse4 : List Char → Option (Nat × List Char)
  | a :: b :: c :: d :: rest =>
    match digitVal? a, digitVal? b, digitVal? c, digitVal? d with
    | some x, some y, some z, some w => some (1000 * x + 100 * y + 10 * z + w, rest)
    | _, _, _, _ => none
  | _ => none

/-- Consume one expected character. -/
def expectChar (c : Char) : List Char → Option (List Char)
  | x :: rest => if x = c then some rest else none
  | [] => none

/-- Optional `:SS` component of a time; absent seconds default to `0`. -/
def parseSecondsPart : List Char → Option (Nat × List Char)
  | c :: rest => if c = ':' then parse2 rest else some (0, c :: rest)
  | [] => some (0, [])

/-- Magnitude `HH:MM` of a UTC offset, in minutes; must consume the rest of
the input, as `fromisoformat` rejects trailing garbage. -/
def parseOffMag (l : List Char) : Option Int :=
  match parse2 l with
  | none => none
  | some (hh, l1) =>
    match expectChar ':' l1 with
    | none => none
    | some l2 =>
      match parse2 l2 with
      | none => none
      | some (mm, l3) =>
        if l3 = [] ∧ hh ≤ 23 ∧ mm ≤ 59 then some ((hh : Int) * 60 + (mm : Int)) else none

/-- Trailing UTC offset: empty input means a naive datetime, otherwise a
signed `±HH:MM` offset is required. -/
def parseOffsetEnd : List Char → Option (Option Int)
  | [] => some none
  | '+' :: rest => (parseOffMag rest).map (fun o => some o)
  | '-' :: rest => (parseOffMag rest).map (fun o => some (-o))
  | _ => none

/-- Gregorian leap-year rule. -/
def isLeapYear (y : Nat) : Bool :=
  y % 4 = 0 && (y % 100 ≠ 0 || y % 400 = 0)

/-- Number of days in a month. -/
def daysInMonth (y m : Nat) : Nat :=
  if m = 1 then 31
  else if m = 2 then (if isLeapYear y then 29 else 28)
  else if m = 3 then 31
  else if m = 4 then 30
  else if m = 5 then 31
  else if m = 6 then 30
  else if m = 7 then 31
  else if m = 8 then 31
  else if m = 9 then 30
  else if m = 10 then 31
  else if m = 11 then 30
  else 31

/-- Validated datetime constructor: the range checks performed by the
`datetime` constructor (and hence by `fromisoformat`). -/
def mkDT (y mo d hh mi ss : Nat) (off : Option Int) : Option PyDateTime :=
  if 1 ≤ y ∧ 1 ≤ mo ∧ mo ≤ 12 ∧ 1 ≤ d ∧ d ≤ daysInMonth y mo ∧ hh ≤ 23 ∧ mi ≤ 59 ∧ ss ≤ 59
  then some ⟨y, mo, d, hh, mi, ss, off⟩ else none

/-- `datetime.fromisoformat` on a character list, for the
`YYYY-MM-DDTHH:MM[:SS][±HH:MM]` shapes this program produces. -/
def fromIsoChars (l : List Char) : Option PyDateTime :=
  match parse4 l with
  | none => none
  | some (y, l1) =>
    match expectChar '-' l1 with
    | none => none
    | some l2 =>
      match parse2 l2 with
      | none => none
      | some (mo, l3) =>
        match expectChar '-' l3 with
        | none => none
        | some l4 =>
          match parse2 l4 with
          | none => none
          | some (d, l5) =>
            match expectChar 'T' l5 with
            | none => none
            | some l6 =>
              match parse2 l6 with
              | none => none
              | some (hh, l7) =>
                match expectChar ':' l7 with
                | none => none
                | some l8 =>
                  match parse2 l8 with
                  | none => none
                  | some (mi, l9) =>
                    match parseSecondsPart l9 with
                    | none => none
                    | some (ss, l10) =>
                      match parseOffsetEnd l10 with
                      | none => none
                      | some off => mkDT y mo d hh mi ss off

/-- `datetime.fromisoformat` on a string. -/
def pyFromIso (s : String) : Option PyDateTime := fromIsoChars s.data

/-- Python `str.replace("Z", "+00:00")`: every occurrence of the character
`Z` is rewritten. -/
def strReplaceZ (s : String) : String :=
  ⟨s.data.flatMap (fun c => if c = 'Z' then ['+', '0', '0', ':', '0', '0'] else [c])⟩

/-- `parse_f1_datetime` (source lines 312-323): empty date or time gives
`None`; otherwise the strings are combined with `"T"`, `"Z"` is rewritten
to `"+00:00"`, and the result is parsed; parse errors give `None`. -/
def parse_f1_datetime (dateStr timeStr : String) : Option PyDateTime :=
  if dateStr = "" ∨ timeStr = "" then none
  else pyFromIso (strReplaceZ (dateStr ++ "T" ++ timeStr))

/-- Days since the Unix epoch of a civil date (Gregorian calendar,
standard days-from-civil computation). -/
def daysFromCivil (y m d : Nat) : Int :=
  let yi : Int := (y : Int)
  let mi : Int := (m : Int)
  let di : Int := (d : Int)
  let y2 : Int := if mi ≤ 2 then yi - 1 else yi
  let era : Int := (if 0 ≤ y2 then y2 else y2 - 399) / 400
  let yoe : Int := y2 - era * 400
  let mp : Int := (mi + 9) % 12
  let doy : Int := (153 * mp + 2) / 5 + di - 1
  let doe : Int := yoe * 365 + yoe / 4 - yoe / 100 + doy
  era * 146097 + doe - 719468

/-- Civil day number of a datetime's date fields. -/
def civilDay (d : PyDateTime) : Int := daysFromCivil d.year d.month d.day

/-- Instant on the UTC timeline, in seconds (naive datetimes are taken at
offset zero, matching the calendar's `timeZone: UTC` interpretation). -/
def inst (d : PyDateTime) : Int :=
  civilDay d * 86400 + (d.hour : Int) * 3600 + (d.minute : Int) * 60 + (d.second : Int)
    - 60 * d.tz.getD 0

/-- Python `<` on datetimes: comparing a naive and an aware datetime raises
`TypeError` (modelled by `Except.error`); otherwise instants are compared. -/
def pyLt (a b : PyDateTime) : Except Unit Bool :=
  if a.tz.isSome = b.tz.isSome then .ok (decide (inst a < inst b)) else .error ()

/-- A session entry of a race's `schedule` dict; missing `date`/`time`
keys are modelled as the empty string (both are falsy in Python). -/
structure Session where
  date : String
  time : String
deriving DecidableEq, Repr

/-- The `circuit` dict of a race; missing keys are modelled as the empty
string, matching the `.get(key, "")` defaults in the source. -/
structure Circuit where
  circuitName : String
  country : String
  city : String
deriving DecidableEq, Repr

/-- A raw race record.  `raceName` is optional because the source default
`race.get("raceName", "F1 Race")` distinguishes a missing key from an
empty string; `round` is kept as its formatted string (`""` = missing or
falsy), matching `race.get("round", "")`. -/
structure Race where
  raceName : Option String
  round : String
  circuit : Circuit
  sRace : Option Session
  sQualy : Option Session
  sSprintRace : Option Session
  sSprintQualy : Option Session
deriving DecidableEq, Repr

/-- The fixed session-type order of the sync loop. -/
def sessionTypes : List String := ["race", "qualy", "sprintRace", "sprintQualy"]

/-- `race["schedule"].get(session_type, {})`. -/
def Race.getSession (r : Race) (ty : String) : Option Session :=
  if ty = "race" then r.sRace
  else if ty = "qualy" then r.sQualy
  else if ty = "sprintRace" then r.sSprintRace
  else if ty = "sprintQualy" then r.sSprintQualy
  else none

/-- Python `str.title()` on ASCII text: first letter of every alphabetic
run is uppercased, the rest lowercased. -/
def pyTitleChars : List Char → Bool → List Char
  | [], _ => []
  | c :: rest, prevAlpha =>
    (if c.isAlpha then (if prevAlpha then c.toLower else c.toUpper) else c)
      :: pyTitleChars rest c.isAlpha

/-- Python `str.title()`. -/
def pyTitle (s : String) : String := ⟨pyTitleChars s.data false⟩

/-- The `session_labels` mapping with its `session_type.title()` fallback. -/
def sessionLabel (ty : String) : String :=
  if ty = "race" then "Race"
  else if ty = "qualy" then "Qualifying"
  else if ty = "sprintRace" then "Sprint Race"
  else if ty = "sprintQualy" then "Sprint Qualifying"
  else pyTitle ty

/-- Python `s.rsplit(" ", 1)[0]`: everything before the last space, or the
whole string when it has no space. -/
def rsplitHeadChars (l : List Char) : List Char :=
  if ' ' ∈ l then ((l.reverse.dropWhile (fun c => c ≠ ' ')).drop 1).reverse else l

/-- Python `s.rsplit(" ", 1)[0]` on strings. -/
def pyRsplitHead (s : String) : String := ⟨rsplitHeadChars s.data⟩

/-- `format_session_title` (source lines 326-349). -/
def format_session_title (race : Race) (sessionType : String) : String :=
  let raceName0 := race.raceName.getD "F1 Race"
  let raceName := if raceName0 ≠ "" then pyRsplitHead raceName0 else "F1 Race"
  let label := sessionLabel sessionType
  if race.circuit.circuitName ≠ "" then
    "F1 " ++ raceName ++ " - " ++ label ++ " (" ++ race.circuit.circuitName ++ ")"
  else if race.circuit.country ≠ "" then
    "F1 " ++ raceName ++ " - " ++ label ++ " (" ++ race.circuit.country ++ ")"
  else
    "F1 " ++ raceName ++ " - " ++ label

/-- The optional description lines (`parts` list of
`format_session_description`, source lines 360-368). -/
def descriptionParts (race : Race) : List String :=
  (if race.round ≠ "" then ["Round " ++ race.round] else []) ++
  (if race.circuit.circuitName ≠ "" then ["Circuit: " ++ race.circuit.circuitName] else []) ++
  (if race.circuit.city ≠ "" ∧ race.circuit.country ≠ "" then
    ["Location: " ++ race.circuit.city ++ ", " ++ race.circuit.country]
   else if race.circuit.country ≠ "" then ["Location: " ++ race.circuit.country]
   else [])

/-- Python `"\n".join(parts)`. -/
def joinNL : List String → String
  | [] => ""
  | [p] => p
  | p :: ps => p ++ "\n" ++ joinNL ps

/-- `format_session_description` (source lines 352-377):
`f"Formula 1 {label}\n" + "\n".join(parts)`. -/
def format_session_description (race : Race) (sessionType : String) : String :=
  "Formula 1 " ++ sessionLabel sessionType ++ "\n" ++ joinNL (descriptionParts race)

/-- Characters stripped by `str.strip(", ")`. -/
def isStripChar (c : Char) : Bool := c == ',' || c == ' '

/-- Python `s.strip(", ")`: remove leading and trailing commas/spaces. -/
def pyStripCommaSpace (s : String) : String :=
  ⟨((s.data.dropWhile isStripChar).reverse.dropWhile isStripChar).reverse⟩

/-- The event location string built per race in the sync loop
(source lines 413-416): `f"{city}, {country}".strip(", ")`. -/
def raceLocation (race : Race) : String :=
  pyStripCommaSpace (race.circuit.city ++ ", " ++ race.circuit.country)

/-- A remote calendar event: Google-assigned id plus the payload fields
written by `add_or_update_event`. -/
structure CalEvent where
  id : Nat
  summary : String
  description : String
  location : String
  start : PyDateTime
  stop : PyDateTime
deriving DecidableEq, Repr

/-- The remote calendar store: its events (in insertion order) and the
next fresh event id. -/
structure Store where
  events : List CalEvent
  nextId : Nat
deriving DecidableEq, Repr

/-- `event_start.replace(hour=0, minute=0, second=0)`. -/
def dayFloor (q : PyDateTime) : PyDateTime := { q with hour := 0, minute := 0, second := 0 }

/-- `event_start.replace(hour=23, minute=59, second=59)`. -/
def dayCeil (q : PyDateTime) : PyDateTime := { q with hour := 23, minute := 59, second := 59 }

/-- Whether an event start `e` falls in the `timeMin`/`timeMax` window the
source derives from a query start `q` (source lines 230-231). -/
def onDayB (e q : PyDateTime) : Bool :=
  decide (inst (dayFloor q) ≤ inst e) && decide (inst e ≤ inst (dayCeil q))

/-- `GoogleCalendarService.find_existing_event` (source lines 225-252):
list the events of the calendar day of `eventStart` and return the first
whose summary equals the title.  An `HttpError` during the lookup is
caught and turned into `None`; the flag injects that failure. -/
def find_existing_event (lookupFails : Bool) (s : Store) (title : String)
    (eventStart : PyDateTime) : Option CalEvent :=
  if lookupFails then none
  else (s.events.filter (fun e => onDayB e.start eventStart)).find?
    (fun e => e.summary == title)

/-- `start_time.replace(hour=start_time.hour + 2)` — only meaningful when
`hour + 2 ≤ 23`; otherwise the source raises an uncaught `ValueError`. -/
def endOf (dt : PyDateTime) : PyDateTime := { dt with hour := dt.hour + 2 }

/-- Full replace of the event with the given id (Google `events().update`). -/
def updateStore (s : Store) (i : Nat) (ev : CalEvent) : Store :=
  { s with events := s.events.map (fun e => if e.id = i then ev else e) }

/-- `GoogleCalendarService.add_or_update_event` (source lines 254-309).
`lookupFails`/`writeFails` inject remote `HttpError`s: a failing inner
lookup is caught inside `find_existing_event` and looks like "not found";
a failing write is caught at line 307 and returns `None`.  When
`start_time.hour + 2 > 23` the `replace` call raises `ValueError`, which
only `except HttpError` guards, so it escapes: modelled as `.error ()`. -/
def add_or_update_event (lookupFails writeFails : Bool) (s : Store) (title : String)
    (startTime : PyDateTime) (description location : String) :
    Except Unit (Option Nat × Store) :=
  let existing := find_existing_event lookupFails s title startTime
  if startTime.hour + 2 ≤ 23 then
    let newBody : CalEvent := ⟨0, title, description, location, startTime, endOf startTime⟩
    match existing with
    | some ev =>
      if writeFails then .ok (none, s)
      else .ok (some ev.id, updateStore s ev.id { newBody with id := ev.id })
    | none =>
      if writeFails then .ok (none, s)
      else .ok (some s.nextId, ⟨s.events ++ [{ newBody with id := s.nextId }], s.nextId + 1⟩)
  else .error ()

/-- Failure pattern of the three remote calls made for one eligible
candidate: the lookup in the sync loop, the lookup inside
`add_or_update_event`, and the create/update write. -/
structure ErrFlags where
  outerFindFails : Bool
  innerFindFails : Bool
  writeFails : Bool
deriving DecidableEq, Repr

/-- No remote failure. -/
def noErr : ErrFlags := ⟨false, false, false⟩

/-- Payload of one eligible candidate as assembled in the loop body. -/
structure Cand where
  title : String
  description : String
  location : String
  dt : PyDateTime
deriving DecidableEq, Repr

/-- Mutable state of one `sync_f1_schedule` pass: the remote store, the
four counters, the per-candidate event-id outcomes, and the stream of
failure patterns the environment will deal out (one per eligible
candidate; an empty stream means no remote failures). -/
structure SyncState where
  store : Store
  added : Nat
  updated : Nat
  past : Nat
  invalid : Nat
  ids : List (Option Nat)
  errs : List ErrFlags
deriving DecidableEq, Repr

/-- Loop body for one eligible (future, valid) candidate
(source lines 435-456): outer existence check, create-or-replace, then
counter update only when an event id was produced. -/
def eligStep (st : SyncState) (c : Cand) : Except Unit SyncState :=
  match add_or_update_event (st.errs.headD noErr).innerFindFails
      (st.errs.headD noErr).writeFails st.store c.title c.dt
      c.description c.location with
  | .error e => .error e
  | .ok (eventId, store1) =>
    .ok (match eventId with
      | some _ =>
        if (find_existing_event (st.errs.headD noErr).outerFindFails
              st.store c.title c.dt).isSome then
          { st with
            store := store1
            ids := st.ids ++ [eventId]
            errs := st.errs.tail
            updated := st.updated + 1 }
        else
          { st with
            store := store1
            ids := st.ids ++ [eventId]
            errs := st.errs.tail
            added := st.added + 1 }
      | none =>
        { st with
          store := store1
          ids := st.ids ++ [eventId]
          errs := st.errs.tail })

/-- Processing of one session of one race (source lines 418-456):
skip silently when absent or missing date/time, count invalid on parse
failure, count past on `match_datetime < current_time`, otherwise run the
reconcile step.  The naive-vs-aware `TypeError` of the comparison
propagates. -/
def processSession (now : PyDateTime) (r : Race) (st : SyncState) (ty : String) :
    Except Unit SyncState :=
  match r.getSession ty with
  | none => .ok st
  | some sess =>
    if sess.date = "" ∨ sess.time = "" then .ok st
    else
      match parse_f1_datetime sess.date sess.time with
      | none => .ok { st with invalid := st.invalid + 1 }
      | some dt =>
        match pyLt dt now with
        | .error e => .error e
        | .ok true => .ok { st with past := st.past + 1 }
        | .ok false =>
          eligStep st ⟨format_session_title r ty, format_session_description r ty,
            raceLocation r, dt⟩

/-- Processing of one race: the four session types in fixed order. -/
def processRace (now : PyDateTime) (st : SyncState) (r : Race) : Except Unit SyncState :=
  sessionTypes.foldlM (processSession now r) st

/-- The run report printed at the end of a pass (source lines 458-465). -/
structure RunSummary where
  totalFetched : Nat
  added : Nat
  updated : Nat
  pastSkipped : Nat
  invalidSkipped : Nat
deriving DecidableEq, Repr

/-- Observable outcome of one pass: the emitted summary (if any), the
final remote store, and the event-id outcome of each eligible candidate. -/
structure SyncResult where
  summary : Option RunSummary
  store : Store
  eventIds : List (Option Nat)
deriving DecidableEq, Repr

/-- Initial loop state of a pass. -/
def initSyncState (s : Store) (errs : List ErrFlags) : SyncState :=
  ⟨s, 0, 0, 0, 0, [], errs⟩

/-- `sync_f1_schedule` (source lines 380-477), from the point where the
fetched races are known: with zero races the pass returns early — before
the summary block — leaving the store untouched; otherwise every race is
processed and the summary is emitted. -/
def sync_f1_schedule (now : PyDateTime) (races : List Race) (store0 : Store)
    (errs : List ErrFlags) : Except Unit SyncResult :=
  if races = [] then .ok ⟨none, store0, []⟩
  else
    match races.foldlM (processRace now) (initSyncState store0 errs) with
    | .error e => .error e
    | .ok st => .ok ⟨some ⟨races.length, st.added, st.updated, st.past, st.invalid⟩,
        st.store, st.ids⟩

/-- The eligible candidate (if any) that the loop body derives from one
session type of a race: present, non-empty date and time, parseable, and
not strictly before `now`. -/
def eligOf (now : PyDateTime) (r : Race) (ty : String) : Option Cand :=
  match r.getSession ty with
  | none => none
  | some sess =>
    if sess.date = "" ∨ sess.time = "" then none
    else
      match parse_f1_datetime sess.date sess.time with
      | none => none
      | some dt =>
        match pyLt dt now with
        | .ok false => some ⟨format_session_title r ty, format_session_description r ty,
            raceLocation r, dt⟩
        | _ => none

/-- All eligible candidates of one race, in loop order. -/
def raceEligCands (now : PyDateTime) (r : Race) : List Cand :=
  sessionTypes.filterMap (eligOf now r)

/-- All eligible candidates of a pass, in loop order. -/
def allCands (now : PyDateTime) (races : List Race) : List Cand :=
  races.flatMap (raceEligCands now)

/-- The event `add_or_update_event` creates for candidate `c` under id `i`. -/
def mkEvent (c : Cand) (i : Nat) : CalEvent :=
  ⟨i, c.title, c.description, c.location, c.dt, endOf c.dt⟩

/-- Events created for a run of fresh candidates, ids counting up from `n`. -/
def createdFrom (n : Nat) : List Cand → List CalEvent
  | [] => []
  | c :: cs => mkEvent c n :: createdFrom (n + 1) cs

/-- Event-id outcomes of a run of successful creations from id `n`. -/
def someIdsFrom (n : Nat) : List Cand → List (Option Nat)
  | [] => []
  | _ :: cs => some n :: someIdsFrom (n + 1) cs

/-- Field sanity of a datetime as guaranteed by the `datetime` constructor. -/
def BoundedDT (d : PyDateTime) : Prop := d.hour ≤ 23 ∧ d.minute ≤ 59 ∧ d.second ≤ 59

/-- A candidate the reconcile step can handle without the end-time
`ValueError`: UTC-aware, start hour at most 21, sane fields. -/
def GoodCand (c : Cand) : Prop :=
  c.dt.tz = some 0 ∧ c.dt.hour + 2 ≤ 23 ∧ c.dt.minute ≤ 59 ∧ c.dt.second ≤ 59

/-- Two candidates that cannot collide in the store: distinct titles or
distinct calendar days. -/
def keysDiffer (c c' : Cand) : Prop :=
  ¬(c.title = c'.title ∧ civilDay c.dt = civilDay c'.dt)

/-- The dedup invariant: no two events of the store share both their title
and their calendar day. -/
def Dedup (s : Store) : Prop :=
  s.events.Pairwise (fun e1 e2 => ¬(e1.summary = e2.summary ∧ civilDay e1.start = civilDay e2.start))

/-- Store sanity maintained by the reconciler: every event start is
UTC-aware with sane fields, ids are distinct and below the counter, and
the dedup invariant holds. -/
def StoreInv (s : Store) : Prop :=
  (∀ e ∈ s.events, e.start.tz = some 0 ∧ BoundedDT e.start ∧ e.id < s.nextId) ∧
  (s.events.map CalEvent.id).Nodup ∧ Dedup s

/-- Eligibility of one session for the idempotence scenario: if present
with non-empty fields it parses to a UTC instant with start hour at most
21 that is not in the past. -/
def EligSession (now : PyDateTime) (sess : Session) : Prop :=
  sess.date ≠ "" → sess.time ≠ "" →
    ∃ dt, parse_f1_datetime sess.date sess.time = some dt ∧ dt.tz = some 0 ∧
      dt.hour + 2 ≤ 23 ∧ pyLt dt now = .ok false

/-- Eligibility of all sessions of a race. -/
def EligRace (now : PyDateTime) (r : Race) : Prop :=
  ∀ ty ∈ sessionTypes, ∀ sess, r.getSession ty = some sess → EligSession now sess

/-- All parseable sessions of a race carry the UTC designator (the shape
the data model guarantees for the feed). -/
def UTCRace (r : Race) : Prop :=
  ∀ ty ∈ sessionTypes, ∀ sess, r.getSession ty = some sess →
    ∀ dt, parse_f1_datetime sess.date sess.time = some dt → dt.tz = some 0

/-- No event of the store already matches a candidate (same day window and
same title). -/
def NoMatch (s : Store) (c : Cand) : Prop :=
  ∀ e ∈ s.events, ¬(onDayB e.start c.dt = true ∧ e.summary = c.title)

/-- Candidates surviving a per-candidate write-failure pattern (`true` =
the create fails and nothing is stored); a missing flag means no failure. -/
def sieve : List Bool → List Cand → List Cand
  | _, [] => []
  | [], cs => cs
  | w :: ws, c :: cs => if w then sieve ws cs else c :: sieve ws cs

/-- Event-id outcomes of a fresh-store run under a write-failure pattern:
failed creates yield no id, successful ones the next counter value. -/
def idsOutW (n : Nat) : List Bool → List Cand → List (Option Nat)
  | _, [] => []
  | [], _ :: cs => some n :: idsOutW (n + 1) [] cs
  | w :: ws, _ :: cs =>
    if w then none :: idsOutW n ws cs else some n :: idsOutW (n + 1) ws cs

/-- Error pattern of a run whose writes fail exactly as `ws` prescribes. -/
def writeErrsOf (ws : List Bool) : List ErrFlags :=
  ws.map (fun w => ⟨false, false, w⟩)

/-- Fields of a well-formed `YYYY-MM-DD` date string. -/
def dateFields? (l : List Char) : Option (Nat × Nat × Nat) :=
  match parse4 l with
  | none => none
  | some (y, l1) =>
    match expectChar '-' l1 with
    | none => none
    | some l2 =>
      match parse2 l2 with
      | none => none
      | some (mo, l3) =>
        match expectChar '-' l3 with
        | none => none
        | some l4 =>
          match parse2 l4 with
          | none => none
          | some (d, l5) => if l5 = [] then some (y, mo, d) else none

/-- Syntactically well-formed calendar date string (`YYYY-MM-DD`, valid
Gregorian date). -/
def isValidDate (s : String) : Bool :=
  match dateFields? s.data with
  | some (y, mo, d) => decide (1 ≤ y ∧ 1 ≤ mo ∧ mo ≤ 12 ∧ 1 ≤ d ∧ d ≤ daysInMonth y mo)
  | none => false

/-- Fields of a time string of shape `HH:MM` or `HH:MM:SS` with no UTC
designator and no offset. -/
def timeFieldsPlain? (l : List Char) : Option (Nat × Nat × Nat) :=
  match parse2 l with
  | none => none
  | some (hh, l1) =>
    match expectChar ':' l1 with
    | none => none
    | some l2 =>
      match parse2 l2 with
      | none => none
      | some (mi, l3) =>
        match parseSecondsPart l3 with
        | none => none
        | some (ss, l4) => if l4 = [] then some (hh, mi, ss) else none

/-- Syntactically well-formed time-of-day string carrying no UTC
designator (`HH:MM[:SS]`, valid ranges, no `Z`, no offset). -/
def isValidPlainTime (s : String) : Bool :=
  match timeFieldsPlain? s.data with
  | some (hh, mi, ss) => decide (hh ≤ 23 ∧ mi ≤ 59 ∧ ss ≤ 59)
  | none => false

instance {ε α : Type} [DecidableEq ε] [DecidableEq α] : DecidableEq (Except ε α)
  | .error a, .error b =>
    if h : a = b then .isTrue (by rw [h]) else .isFalse (by intro hh; cases hh; exact h rfl)
  | .error _, .ok _ => .isFalse (by intro h; cases h)
  | .ok _, .error _ => .isFalse (by intro h; cases h)
  | .ok a, .ok b =>
    if h : a = b then .isTrue (by rw [h]) else .isFalse (by intro hh; cases hh; exact h rfl)

instance (c c' : Cand) : Decidable (keysDiffer c c') := by
  unfold keysDiffer; infer_instance

instance (s : Store) : Decidable (Dedup s) := by
  unfold Dedup; exact List.instDecidablePairwise s.events

instance (s : Store) : Decidable (StoreInv s) := by
  unfold StoreInv Dedup BoundedDT; infer_instance

/-- Reference instant used by the concrete test scenarios. -/
def cNow : PyDateTime := ⟨2025, 1, 1, 0, 0, 0, some 0⟩

/-- The empty remote store. -/
def emptyStore : Store := ⟨[], 0⟩

/-- A race with two future sessions, as fetched from the feed. -/
def wRace : Race :=
  ⟨some "Australian Grand Prix 2025", "1", ⟨"Albert Park", "Australia", "Melbourne"⟩,
    some ⟨"2025-03-16", "04:00:00Z"⟩, some ⟨"2025-03-15", "05:00:00Z"⟩, none, none⟩

/-- A race whose only session starts at 22:00 UTC. -/
def crashRace : Race :=
  ⟨some "Las Vegas Grand Prix 2025", "22", ⟨"Las Vegas Strip", "USA", "Las Vegas"⟩,
    some ⟨"2025-11-23", "22:00:00Z"⟩, none, none, none⟩

/-- A race with one ordinary future session. -/
def oneRace : Race :=
  ⟨some "Monaco Grand Prix 2025", "8", ⟨"Circuit de Monaco", "Monaco", "Monaco"⟩,
    some ⟨"2025-05-25", "13:00:00Z"⟩, none, none, none⟩

/-- Second single-session race for the partial-failure scenario. -/
def twoRace : Race :=
  ⟨some "British Grand Prix 2025", "12", ⟨"Silverstone", "UK", "Silverstone"⟩,
    some ⟨"2025-07-06", "14:00:00Z"⟩, none, none, none⟩

/-- Third single-session race for the partial-failure scenario. -/
def threeRace : Race :=
  ⟨some "Italian Grand Prix 2025", "16", ⟨"Monza", "Italy", "Monza"⟩,
    some ⟨"2025-09-07", "13:00:00Z"⟩, none, none, none⟩

/-- A race record with no name, round, circuit data or sessions. -/
def bareRace : Race := ⟨none, "", ⟨"", "", ""⟩, none, none, none, none⟩

/-- A race record whose name has no internal space. -/
def monacoBare : Race := ⟨some "Monaco", "", ⟨"", "", ""⟩, none, none, none, none⟩

/-- A store pre-seeded with one event whose title and calendar day match
the race session of `wRace` (the dedup scenario of the spec). -/
def seededStore : Store :=
  ⟨[⟨0, "F1 Australian Grand Prix - Race (Albert Park)", "old description", "old location",
      ⟨2025, 3, 16, 10, 0, 0, some 0⟩, ⟨2025, 3, 16, 12, 0, 0, some 0⟩⟩], 1⟩

/-- The store produced by one pass of `wRace` against `seededStore`: the
seeded event replaced in place, the qualifying session created. -/
def updatedSeededStore : Store :=
  ⟨[⟨0, "F1 Australian Grand Prix - Race (Albert Park)",
      "Formula 1 Race\nRound 1\nCircuit: Albert Park\nLocation: Melbourne, Australia",
      "Melbourne, Australia",
      ⟨2025, 3, 16, 4, 0, 0, some 0⟩, ⟨2025, 3, 16, 6, 0, 0, some 0⟩⟩,
    ⟨1, "F1 Australian Grand Prix - Qualifying (Albert Park)",
      "Formula 1 Qualifying\nRound 1\nCircuit: Albert Park\nLocation: Melbourne, Australia",
      "Melbourne, Australia",
      ⟨2025, 3, 15, 5, 0, 0, some 0⟩, ⟨2025, 3, 15, 7, 0, 0, some 0⟩⟩], 2⟩

/-- A race whose only session starts exactly at the reference instant
`cNow` (temporal boundary scenario). -/
def c7Race : Race :=
  ⟨some "Boundary Grand Prix 2025", "1", ⟨"Somewhere", "Nowhere", "Anywhere"⟩,
    some ⟨"2025-01-01", "00:00:00Z"⟩, none, none, none⟩

/-! ### Helper lemmas -/

theorem dropWhile_last_space (r : List Char) (hr : ' ' ∈ r) :
    ∃ tk rest, r = tk ++ ' ' :: rest ∧ ¬ ' ' ∈ tk ∧
      (r.dropWhile (fun c => c ≠ ' ')).drop 1 = rest := by
  induction r with
  | nil => cases hr
  | cons c r ih =>
    by_cases hc : c = ' '
    · subst hc
      refine ⟨[], r, rfl, by simp, ?_⟩
      rw [List.dropWhile_cons, if_neg (by simp)]
      rfl
    · have hr2 : ' ' ∈ r := by
        rcases List.mem_cons.mp hr with h | h
        · exact absurd h.symm hc
        · exact h
      obtain ⟨tk, rest, hsplit, htk, hdrop⟩ := ih hr2
      refine ⟨c :: tk, rest, ?_, ?_, ?_⟩
      · rw [List.cons_append, ← hsplit]
      · intro hmem
        rcases List.mem_cons.mp hmem with h | h
        · exact hc h.symm
        · exact htk h
      · rw [List.dropWhile_cons, if_pos (by simp [hc])]
        exact hdrop

theorem rsplitHead_spec (l : List Char) (h : ' ' ∈ l) :
    ∃ pre post : List Char, l = pre ++ ' ' :: post ∧ ¬ ' ' ∈ post ∧
      rsplitHeadChars l = pre := by
  have h2 : ' ' ∈ l.reverse := List.mem_reverse.mpr h
  obtain ⟨tk, rest, hsplit, htk, hdrop⟩ := dropWhile_last_space l.reverse h2
  refine ⟨rest.reverse, tk.reverse, ?_, by simpa using htk, ?_⟩
  · have := congrArg List.reverse hsplit
    simpa [List.reverse_append] using this
  · unfold rsplitHeadChars
    rw [if_pos h, hdrop]

/-! ### C5: title derivation -/

/-- C5 counterexample: for the spaceless race name `"Monaco"` the whole
name is kept, not removed — the title is `"F1 Monaco - Race"`, not
`"F1  - Race"`. -/
theorem title_nospace_counterexample :
    format_session_title monacoBare "race" = "F1 Monaco - Race" ∧
    format_session_title monacoBare "race" ≠ "F1  - Race" := by
  constructor <;> decide

/-- C5 (amended): the event title strips the trailing space-delimited
token from a race name that contains a space; a race name with no
internal space is kept whole. -/
theorem title_strips_trailing_token (name : String) (hne : name ≠ "") :
    (¬ ' ' ∈ name.data →
      format_session_title ⟨some name, "", ⟨"", "", ""⟩, none, none, none, none⟩ "race"
        = "F1 " ++ name ++ " - Race") ∧
    (' ' ∈ name.data →
      ∃ pre post : String, name = pre ++ " " ++ post ∧ ¬ ' ' ∈ post.data ∧
        format_session_title ⟨some name, "", ⟨"", "", ""⟩, none, none, none, none⟩ "race"
          = "F1 " ++ pre ++ " - Race") := by
  constructor
  · intro hsp
    have hr : rsplitHeadChars name.data = name.data := by
      unfold rsplitHeadChars
      exact if_neg hsp
    simp only [format_session_title, Option.getD, pyRsplitHead, hr]
    rw [if_pos hne]
    apply String.ext
    simp [String.data_append, sessionLabel]
  · intro hsp
    obtain ⟨pre, post, hsplit, hpost, hhead⟩ := rsplitHead_spec name.data hsp
    refine ⟨⟨pre⟩, ⟨post⟩, ?_, hpost, ?_⟩
    · apply String.ext
      simp [String.data_append, hsplit]
    · simp only [format_session_title, Option.getD, pyRsplitHead, hhead]
      rw [if_pos hne]
      apply String.ext
      simp [String.data_append, sessionLabel]

/-! ### C8: description block -/

/-- C8 counterexample: with every optional line absent the description is
the header followed by a trailing newline, not the bare header block. -/
theorem description_trailing_newline_counterexample :
    format_session_description bareRace "race" = "Formula 1 Race\n" ∧
    format_session_description bareRace "race" ≠ "Formula 1 Race" := by
  constructor <;> decide

/-- C8 (amended): when at least one optional line is present the
description is the newline-joined block of the header and the optional
lines (no trailing newline); when every optional line is absent it is the
header followed by one trailing newline. -/
theorem description_block_shape (race : Race) (ty : String) :
    (descriptionParts race ≠ [] →
      format_session_description race ty
        = joinNL (("Formula 1 " ++ sessionLabel ty) :: descriptionParts race)) ∧
    (descriptionParts race = [] →
      format_session_description race ty = "Formula 1 " ++ sessionLabel ty ++ "\n") := by
  constructor
  · intro hne
    cases hp : descriptionParts race with
    | nil => exact absurd hp hne
    | cons p ps =>
      simp only [format_session_description, hp, joinNL]
  · intro hp
    simp only [format_session_description, hp, joinNL]
    apply String.ext
    simp [String.data_append]

/-! ### C9: summary emission -/

/-- C9 counterexample: with zero races the pass returns before the
summary block, so no summary at all is emitted — in particular not an
all-zero one. -/
theorem zero_races_emits_no_summary :
    sync_f1_schedule cNow [] emptyStore [] = .ok ⟨none, emptyStore, []⟩ ∧
    sync_f1_schedule cNow [] emptyStore [] ≠ .ok ⟨some ⟨0, 0, 0, 0, 0⟩, emptyStore, []⟩ := by
  constructor <;> decide

/-- C9 (amended): with zero races the pass ends early with only a warning
and emits no summary, leaving the store untouched; in every pass that
processes at least one race and terminates normally a summary is
emitted. -/
theorem summary_emission (now : PyDateTime) (races : List Race) (store0 : Store)
    (errs : List ErrFlags) :
    (races = [] → sync_f1_schedule now races store0 errs = .ok ⟨none, store0, []⟩) ∧
    (races ≠ [] →
      (sync_f1_schedule now races store0 errs).map (fun res => res.summary.isSome)
        ≠ .ok false) := by
  constructor
  · intro h
    subst h
    rfl
  · intro h
    unfold sync_f1_schedule
    rw [if_neg h]
    cases hfold : races.foldlM (processRace now) (initSyncState store0 errs) with
    | error e => simp [Except.map]
    | ok st => simp [Except.map]

/-- C9 witness: both parts of `summary_emission` at concrete inputs. -/
theorem summary_emission_witness :
    sync_f1_schedule cNow [] emptyStore [] = .ok ⟨none, emptyStore, []⟩ ∧
    (sync_f1_schedule cNow [oneRace] emptyStore []).map (fun res => res.summary.isSome)
      ≠ .ok false :=
  ⟨(summary_emission cNow [] emptyStore []).1 rfl,
   (summary_emission cNow [oneRace] emptyStore []).2 (by simp)⟩

/-! ### C3: end time -/

/-- C3: a future, valid candidate whose start hour is 22 makes the whole
pass abort with the uncaught `ValueError` from
`start_time.replace(hour=start_time.hour + 2)` instead of producing an
event ending two hours after the start; for an ordinary afternoon start
the created event does end exactly 7200 seconds after it starts. -/
theorem end_time_hour_overflow_crash :
    sync_f1_schedule cNow [crashRace] emptyStore [] = .error () ∧
    (sync_f1_schedule cNow [twoRace] emptyStore []).map
      (fun res => res.store.events.map (fun e => inst e.stop - inst e.start)) = .ok [7200] := by
  constructor <;> decide

/-! ### C6: parse totality and invalid handling -/

/-- C6: timestamp parsing always yields either a parsed instant or the
explicit `none` outcome; empty date, empty time and a non-numeric date
all yield `none` (the Python code catches `ValueError`/`TypeError`, so no
exception escapes). -/
theorem parse_total_or_invalid :
    (∀ d t, parse_f1_datetime d t = none ∨ ∃ v, parse_f1_datetime d t = some v) ∧
    (∀ t, parse_f1_datetime "" t = none) ∧
    (∀ d, parse_f1_datetime d "" = none) ∧
    (∀ t, parse_f1_datetime "2025-0x-16" t = none) := by
  refine ⟨fun d t => ?_, fun t => ?_, fun d => ?_, fun t => ?_⟩
  · cases h : parse_f1_datetime d t with
    | none => exact Or.inl rfl
    | some v => exact Or.inr ⟨v, rfl⟩
  · simp [parse_f1_datetime]
  · simp [parse_f1_datetime]
  · by_cases ht : t = ""
    · simp [parse_f1_datetime, ht]
    · rw [parse_f1_datetime, if_neg (by simp [ht])]
      obtain ⟨tl⟩ := t
      rfl

/-! ### C7: temporal classification -/

/-- C7: relative to the reference instant, a parse failure is classified
invalid; a parsed instant strictly before now is classified past; every
other parsed instant — including one exactly equal to now — is classified
future and proceeds to the reconcile step (the comparison is strict
less-than). -/
theorem temporal_classification (now : PyDateTime) (r : Race) (ty : String) (sess : Session)
    (st : SyncState) (hget : r.getSession ty = some sess)
    (hd : sess.date ≠ "") (ht : sess.time ≠ "") :
    (parse_f1_datetime sess.date sess.time = none →
      processSession now r st ty = .ok { st with invalid := st.invalid + 1 }) ∧
    (∀ dt, parse_f1_datetime sess.date sess.time = some dt →
      dt.tz.isSome = now.tz.isSome →
      ((inst dt < inst now →
          processSession now r st ty = .ok { st with past := st.past + 1 }) ∧
       (inst now ≤ inst dt →
          processSession now r st ty = eligStep st
            ⟨format_session_title r ty, format_session_description r ty,
              raceLocation r, dt⟩))) := by
  have hne : ¬(sess.date = "" ∨ sess.time = "") := by simp [hd, ht]
  constructor
  · intro hp
    simp [processSession, hget, hne, hp]
  · intro dt hp htz
    constructor
    · intro hlt
      have hpy : pyLt dt now = .ok true := by simp [pyLt, htz, hlt]
      simp [processSession, hget, hne, hp, hpy]
    · intro hge
      have hnlt : ¬ inst dt < inst now := not_lt.mpr hge
      have hpy : pyLt dt now = .ok false := by simp [pyLt, htz, hnlt]
      simp [processSession, hget, hne, hp, hpy]

/-- C7 witness: a session starting exactly at the reference instant is
classified future and reaches the reconcile step. -/
theorem temporal_classification_witness :
    processSession cNow c7Race (initSyncState emptyStore []) "race"
      = eligStep (initSyncState emptyStore [])
          ⟨format_session_title c7Race "race", format_session_description c7Race "race",
            raceLocation c7Race, ⟨2025, 1, 1, 0, 0, 0, some 0⟩⟩ :=
  ((temporal_classification cNow c7Race "race" ⟨"2025-01-01", "00:00:00Z"⟩
      (initSyncState emptyStore []) rfl (by decide) (by decide)).2
    ⟨2025, 1, 1, 0, 0, 0, some 0⟩ (by decide) rfl).2 (by decide)

/-! ### Parser inversion -/

theorem parse2_eq_some {l : List Char} {v : Nat} {r : List Char}
    (h : parse2 l = some (v, r)) :
    ∃ a b x y, l = a :: b :: r ∧ digitVal? a = some x ∧ digitVal? b = some y ∧
      v = 10 * x + y := by
  cases l with
  | nil => simp [parse2] at h
  | cons a l2 =>
    cases l2 with
    | nil => simp [parse2] at h
    | cons b rest =>
      cases hx : digitVal? a with
      | none => simp [parse2, hx] at h
      | some x =>
        cases hy : digitVal? b with
        | none => simp [parse2, hx, hy] at h
        | some y =>
          simp only [parse2, hx, hy, Option.some.injEq, Prod.mk.injEq] at h
          exact ⟨a, b, x, y, by rw [h.2], hx, hy, h.1.symm⟩

theorem parse4_eq_some {l : List Char} {v : Nat} {r : List Char}
    (h : parse4 l = some (v, r)) :
    ∃ a b c d xa xb xc xd, l = a :: b :: c :: d :: r ∧
      digitVal? a = some xa ∧ digitVal? b = some xb ∧ digitVal? c = some xc ∧
      digitVal? d = some xd ∧ v = 1000 * xa + 100 * xb + 10 * xc + xd := by
  cases l with
  | nil => simp [parse4] at h
  | cons a l2 =>
    cases l2 with
    | nil => simp [parse4] at h
    | cons b l3 =>
      cases l3 with
      | nil => simp [parse4] at h
      | cons c l4 =>
        cases l4 with
        | nil => simp [parse4] at h
        | cons d rest =>
          cases hxa : digitVal? a with
          | none => simp [parse4, hxa] at h
          | some xa =>
            cases hxb : digitVal? b with
            | none => simp [parse4, hxa, hxb] at h
            | some xb =>
              cases hxc : digitVal? c with
              | none => simp [parse4, hxa, hxb, hxc] at h
              | some xc =>
                cases hxd : digitVal? d with
                | none => simp [parse4, hxa, hxb, hxc, hxd] at h
                | some xd =>
                  simp only [parse4, hxa, hxb, hxc, hxd, Option.some.injEq,
                    Prod.mk.injEq] at h
                  exact ⟨a, b, c, d, xa, xb, xc, xd, by rw [h.2], hxa, hxb, hxc, hxd,
                    h.1.symm⟩

theorem expectChar_eq_some {c : Char} {l r : List Char}
    (h : expectChar c l = some r) : l = c :: r := by
  cases l with
  | nil => simp [expectChar] at h
  | cons x rest =>
    by_cases hx : x = c
    · subst hx
      simp only [expectChar, if_true, eq_self_iff_true, Option.some.injEq] at h
      rw [h]
    · simp [expectChar, hx] at h

theorem parseSecondsPart_nil_inv {l : List Char} {v : Nat}
    (h : parseSecondsPart l = some (v, [])) :
    (l = [] ∧ v = 0) ∨
    ∃ a b x y, l = ':' :: a :: b :: [] ∧ digitVal? a = some x ∧ digitVal? b = some y ∧
      v = 10 * x + y := by
  cases l with
  | nil =>
    simp only [parseSecondsPart, Option.some.injEq, Prod.mk.injEq] at h
    exact Or.inl ⟨rfl, h.1.symm⟩
  | cons c rest =>
    by_cases hc : c = ':'
    · subst hc
      simp only [parseSecondsPart, if_pos rfl] at h
      obtain ⟨a, b, x, y, hl, hx, hy, hv⟩ := parse2_eq_some h
      exact Or.inr ⟨a, b, x, y, by rw [hl], hx, hy, hv⟩
    · simp only [parseSecondsPart, if_neg hc, Option.some.injEq, Prod.mk.injEq] at h
      cases h.2

theorem digit_ne_Z {a : Char} {x : Nat} (h : digitVal? a = some x) : a ≠ 'Z' := by
  intro hz
  subst hz
  simp [digitVal?] at h

theorem flatMapZ_id {l : List Char} (h : ∀ c ∈ l, c ≠ 'Z') :
    l.flatMap (fun c => if c = 'Z' then ['+', '0', '0', ':', '0', '0'] else [c]) = l := by
  induction l with
  | nil => rfl
  | cons c rest ih =>
    rw [List.flatMap_cons, if_neg (h c (List.mem_cons_self c rest)),
      ih (fun x hx => h x (List.mem_cons_of_mem c hx))]
    rfl

theorem parse2_append {l : List Char} {v : Nat} {r : List Char} (m : List Char)
    (h : parse2 l = some (v, r)) : parse2 (l ++ m) = some (v, r ++ m) := by
  obtain ⟨a, b, x, y, hl, hx, hy, hv⟩ := parse2_eq_some h
  subst hl
  subst hv
  simp [parse2, hx, hy]

theorem parse4_append {l : List Char} {v : Nat} {r : List Char} (m : List Char)
    (h : parse4 l = some (v, r)) : parse4 (l ++ m) = some (v, r ++ m) := by
  obtain ⟨a, b, c, d, xa, xb, xc, xd, hl, hxa, hxb, hxc, hxd, hv⟩ := parse4_eq_some h
  subst hl
  subst hv
  simp [parse4, hxa, hxb, hxc, hxd]

theorem expectChar_append {c : Char} {l r : List Char} (m : List Char)
    (h : expectChar c l = some r) : expectChar c (l ++ m) = some (r ++ m) := by
  rw [expectChar_eq_some h]
  simp [expectChar]

theorem dateFields_parse {l : List Char} {y mo dd : Nat}
    (h : dateFields? l = some (y, mo, dd)) :
    ∃ l1 l2 l3 l4, parse4 l = some (y, l1) ∧ expectChar '-' l1 = some l2 ∧
      parse2 l2 = some (mo, l3) ∧ expectChar '-' l3 = some l4 ∧
      parse2 l4 = some (dd, []) := by
  unfold dateFields? at h
  split at h
  · exact Option.noConfusion h
  rename_i y0 l1 h1
  split at h
  · exact Option.noConfusion h
  rename_i l2 h2
  split at h
  · exact Option.noConfusion h
  rename_i mo0 l3 h3
  split at h
  · exact Option.noConfusion h
  rename_i l4 h4
  split at h
  · exact Option.noConfusion h
  rename_i dd0 l5 h5
  split at h
  · rename_i hl5
    simp only [Option.some.injEq, Prod.mk.injEq] at h
    obtain ⟨rfl, rfl, rfl⟩ := h
    subst hl5
    exact ⟨l1, l2, l3, l4, h1, h2, h3, h4, h5⟩
  · exact Option.noConfusion h

theorem timeFields_parse {l : List Char} {hh mi ss : Nat}
    (h : timeFieldsPlain? l = some (hh, mi, ss)) :
    ∃ m1 m2 m3, parse2 l = some (hh, m1) ∧ expectChar ':' m1 = some m2 ∧
      parse2 m2 = some (mi, m3) ∧ parseSecondsPart m3 = some (ss, []) := by
  unfold timeFieldsPlain? at h
  split at h
  · exact Option.noConfusion h
  rename_i hh0 m1 h1
  split at h
  · exact Option.noConfusion h
  rename_i m2 h2
  split at h
  · exact Option.noConfusion h
  rename_i mi0 m3 h3
  split at h
  · exact Option.noConfusion h
  rename_i ss0 m4 h4
  split at h
  · rename_i hm4
    simp only [Option.some.injEq, Prod.mk.injEq] at h
    obtain ⟨rfl, rfl, rfl⟩ := h
    subst hm4
    exact ⟨m1, m2, m3, h1, h2, h3, h4⟩
  · exact Option.noConfusion h

theorem noZ_of_dateFields {l : List Char} {y mo dd : Nat}
    (h : dateFields? l = some (y, mo, dd)) : ∀ c ∈ l, c ≠ 'Z' := by
  obtain ⟨l1, l2, l3, l4, h1, h2, h3, h4, h5⟩ := dateFields_parse h
  obtain ⟨a, b, c, e, xa, xb, xc, xd, hl, hxa, hxb, hxc, hxd, _⟩ := parse4_eq_some h1
  have hl1 := expectChar_eq_some h2
  obtain ⟨f, g, xf, xg, hl2, hxf, hxg, _⟩ := parse2_eq_some h3
  have hl3 := expectChar_eq_some h4
  obtain ⟨p, q, xp, xq, hl4, hxp, hxq, _⟩ := parse2_eq_some h5
  subst hl
  subst hl1
  subst hl2
  subst hl3
  subst hl4
  intro ch hch
  simp only [List.mem_cons, List.not_mem_nil, or_false] at hch
  rcases hch with rfl | rfl | rfl | rfl | rfl | rfl | rfl | rfl | rfl | rfl
  · exact digit_ne_Z hxa
  · exact digit_ne_Z hxb
  · exact digit_ne_Z hxc
  · exact digit_ne_Z hxd
  · decide
  · exact digit_ne_Z hxf
  · exact digit_ne_Z hxg
  · decide
  · exact digit_ne_Z hxp
  · exact digit_ne_Z hxq

theorem noZ_of_timeFields {l : List Char} {hh mi ss : Nat}
    (h : timeFieldsPlain? l = some (hh, mi, ss)) : ∀ c ∈ l, c ≠ 'Z' := by
  obtain ⟨m1, m2, m3, h1, h2, h3, h4⟩ := timeFields_parse h
  obtain ⟨u, v, xu, xv, hl, hxu, hxv, _⟩ := parse2_eq_some h1
  have hm1 := expectChar_eq_some h2
  obtain ⟨w, z, xw, xz, hm2, hxw, hxz, _⟩ := parse2_eq_some h3
  subst hl
  subst hm1
  subst hm2
  rcases parseSecondsPart_nil_inv h4 with ⟨hm3, _⟩ | ⟨s1, s2, xs1, xs2, hm3, hxs1, hxs2, _⟩
  · subst hm3
    intro ch hch
    simp only [List.mem_cons, List.not_mem_nil, or_false] at hch
    rcases hch with rfl | rfl | rfl | rfl | rfl
    · exact digit_ne_Z hxu
    · exact digit_ne_Z hxv
    · decide
    · exact digit_ne_Z hxw
    · exact digit_ne_Z hxz
  · subst hm3
    intro ch hch
    simp only [List.mem_cons, List.not_mem_nil, or_false] at hch
    rcases hch with rfl | rfl | rfl | rfl | rfl | rfl | rfl | rfl
    · exact digit_ne_Z hxu
    · exact digit_ne_Z hxv
    · decide
    · exact digit_ne_Z hxw
    · exact digit_ne_Z hxz
    · decide
    · exact digit_ne_Z hxs1
    · exact digit_ne_Z hxs2

theorem fromIso_compose {ld lt : List Char} {y mo dd hh mi ss : Nat}
    (hd : dateFields? ld = some (y, mo, dd))
    (ht : timeFieldsPlain? lt = some (hh, mi, ss)) :
    fromIsoChars (ld ++ 'T' :: lt) = mkDT y mo dd hh mi ss none := by
  obtain ⟨l1, l2, l3, l4, h1, h2, h3, h4, h5⟩ := dateFields_parse hd
  obtain ⟨m1, m2, m3, h6, h7, h8, h9⟩ := timeFields_parse ht
  have s1 := parse4_append ('T' :: lt) h1
  have s2 := expectChar_append ('T' :: lt) h2
  have s3 := parse2_append ('T' :: lt) h3
  have s4 := expectChar_append ('T' :: lt) h4
  have s5 := parse2_append ('T' :: lt) h5
  simp only [List.nil_append] at s5
  have hT : expectChar 'T' ('T' :: lt) = some lt := by simp [expectChar]
  have hoff : parseOffsetEnd ([] : List Char) = some none := rfl
  simp only [fromIsoChars, s1, s2, s3, s4, s5, hT, h6, h7, h8, h9, hoff]

/-! ### C10: well-formed pairs without a UTC designator parse to naive
instants -/

/-- C10: a well-formed date paired with a well-formed time that carries no
UTC designator parses successfully to a naive instant (no offset
attached), not to the invalid outcome; only the literal `Z` character is
rewritten to `+00:00` before parsing. -/
theorem parse_plain_time_naive (d t : String)
    (hd : isValidDate d = true) (ht : isValidPlainTime t = true) :
    ∃ dt, parse_f1_datetime d t = some dt ∧ dt.tz = none := by
  unfold isValidDate at hd
  cases hdf : dateFields? d.data with
  | none => rw [hdf] at hd; exact absurd hd (by simp)
  | some ymd =>
    obtain ⟨y, mo, dd⟩ := ymd
    rw [hdf] at hd
    have hdb := of_decide_eq_true hd
    unfold isValidPlainTime at ht
    cases htf : timeFieldsPlain? t.data with
    | none => rw [htf] at ht; exact absurd ht (by simp)
    | some hms =>
      obtain ⟨hh, mi, ss⟩ := hms
      rw [htf] at ht
      have htb := of_decide_eq_true ht
      refine ⟨⟨y, mo, dd, hh, mi, ss, none⟩, ?_, rfl⟩
      have hdne : d ≠ "" := by
        intro h
        rw [h] at hdf
        simp [dateFields?, parse4] at hdf
      have htne : t ≠ "" := by
        intro h
        rw [h] at htf
        simp [timeFieldsPlain?, parse2] at htf
      rw [parse_f1_datetime, if_neg (by simp [hdne, htne])]
      have hdata : (d ++ "T" ++ t).data = d.data ++ 'T' :: t.data := by
        simp [String.data_append]
      have hnoZ : ∀ c ∈ d.data ++ 'T' :: t.data, c ≠ 'Z' := by
        intro c hc
        rcases List.mem_append.mp hc with h | h
        · exact noZ_of_dateFields hdf c h
        · rcases List.mem_cons.mp h with h | h
          · rw [h]; decide
          · exact noZ_of_timeFields htf c h
      show fromIsoChars (strReplaceZ (d ++ "T" ++ t)).data = _
      rw [strReplaceZ]
      show fromIsoChars ((d ++ "T" ++ t).data.flatMap _) = _
      rw [hdata, flatMapZ_id hnoZ, fromIso_compose hdf htf, mkDT,
        if_pos ⟨hdb.1, hdb.2.1, hdb.2.2.1, hdb.2.2.2.1, hdb.2.2.2.2, htb.1, htb.2.1,
          htb.2.2⟩]

/-- C10 witness: the concrete pair `("2025-03-16", "04:00:00")` is
well-formed, parses, and the result is naive. -/
theorem parse_plain_time_naive_witness :
    isValidDate "2025-03-16" = true ∧ isValidPlainTime "04:00:00" = true ∧
    ∃ dt, parse_f1_datetime "2025-03-16" "04:00:00" = some dt ∧ dt.tz = none :=
  ⟨by decide, by decide,
    parse_plain_time_naive "2025-03-16" "04:00:00" (by decide) (by decide)⟩

/-! ### Bounds carried by every parsed datetime -/

theorem fromIsoChars_bounds {l : List Char} {dt : PyDateTime}
    (h : fromIsoChars l = some dt) :
    dt.hour ≤ 23 ∧ dt.minute ≤ 59 ∧ dt.second ≤ 59 := by
  unfold fromIsoChars at h
  split at h
  · exact Option.noConfusion h
  split at h
  · exact Option.noConfusion h
  split at h
  · exact Option.noConfusion h
  split at h
  · exact Option.noConfusion h
  split at h
  · exact Option.noConfusion h
  split at h
  · exact Option.noConfusion h
  split at h
  · exact Option.noConfusion h
  split at h
  · exact Option.noConfusion h
  split at h
  · exact Option.noConfusion h
  split at h
  · exact Option.noConfusion h
  split at h
  · exact Option.noConfusion h
  rw [mkDT] at h
  split at h
  · rename_i hcond
    cases h
    exact ⟨hcond.2.2.2.2.2.1, hcond.2.2.2.2.2.2.1, hcond.2.2.2.2.2.2.2⟩
  · exact Option.noConfusion h

theorem parse_bounds {d t : String} {dt : PyDateTime}
    (h : parse_f1_datetime d t = some dt) : BoundedDT dt := by
  rw [parse_f1_datetime] at h
  split at h
  · cases h
  · exact fromIsoChars_bounds h

/-- C5 witness: the amended stripping rule at the concrete name
`"Australian Grand Prix 2025"`. -/
theorem title_strips_trailing_token_witness :
    ∃ pre post : String, "Australian Grand Prix 2025" = pre ++ " " ++ post ∧
      ¬ ' ' ∈ post.data ∧
      format_session_title
          ⟨some "Australian Grand Prix 2025", "", ⟨"", "", ""⟩, none, none, none, none⟩
          "race"
        = "F1 " ++ pre ++ " - Race" :=
  (title_strips_trailing_token "Australian Grand Prix 2025" (by decide)).2 (by decide)

/-- C8 witness: both shapes of `description_block_shape` at concrete
races. -/
theorem description_block_shape_witness :
    format_session_description wRace "race"
        = joinNL (("Formula 1 " ++ sessionLabel "race") :: descriptionParts wRace) ∧
    format_session_description bareRace "race"
        = "Formula 1 " ++ sessionLabel "race" ++ "\n" :=
  ⟨(description_block_shape wRace "race").1 (by decide),
   (description_block_shape bareRace "race").2 (by decide)⟩

/-! ### Day-window and lookup characterisation -/

theorem onDay_iff {e q : PyDateTime} (he : e.tz = some 0) (hq : q.tz = some 0)
    (hbe : BoundedDT e) : onDayB e q = true ↔ civilDay e = civilDay q := by
  obtain ⟨h1, h2, h3⟩ := hbe
  have he2 : e.tz.getD 0 = 0 := by rw [he]; rfl
  have hfl : (dayFloor q).tz.getD 0 = 0 := by simp [dayFloor, hq]
  have hcl : (dayCeil q).tz.getD 0 = 0 := by simp [dayCeil, hq]
  simp only [onDayB, Bool.and_eq_true, decide_eq_true_eq, inst, he2, hfl, hcl]
  simp only [dayFloor, dayCeil, civilDay]
  constructor
  · rintro ⟨ha, hb⟩
    omega
  · intro hab
    rw [hab]
    omega

theorem find_eq_none_iff {s : Store} {T : String} {q : PyDateTime} :
    find_existing_event false s T q = none ↔
      ∀ e ∈ s.events, onDayB e.start q = true → e.summary ≠ T := by
  unfold find_existing_event
  rw [if_neg (by simp)]
  rw [List.find?_eq_none]
  constructor
  · intro h e he hd
    have := h e (List.mem_filter.mpr ⟨he, hd⟩)
    simpa using this
  · intro h e he
    obtain ⟨hmem, hd⟩ := List.mem_filter.mp he
    simpa using h e hmem hd

theorem find_eq_some_facts {s : Store} {T : String} {q : PyDateTime} {e : CalEvent}
    (h : find_existing_event false s T q = some e) :
    e ∈ s.events ∧ onDayB e.start q = true ∧ e.summary = T := by
  unfold find_existing_event at h
  rw [if_neg (by simp)] at h
  have hmem := List.mem_of_find?_eq_some h
  have hsum := List.find?_some h
  obtain ⟨hmem2, hday⟩ := List.mem_filter.mp hmem
  exact ⟨hmem2, hday, by simpa using hsum⟩

theorem id_inj_of_nodup {l : List CalEvent} (h : (l.map CalEvent.id).Nodup) :
    ∀ a ∈ l, ∀ b ∈ l, a.id = b.id → a = b := by
  intro a ha b hb hab
  exact List.inj_on_of_nodup_map h ha hb hab

/-! ### Behaviour of the reconcile step -/

theorem eligStep_create {st : SyncState} {c : Cand}
    (hh : c.dt.hour + 2 ≤ 23)
    (hef : st.errs.headD noErr = noErr)
    (hfresh : find_existing_event false st.store c.title c.dt = none) :
    eligStep st c = .ok { st with
      store := ⟨st.store.events ++ [mkEvent c st.store.nextId], st.store.nextId + 1⟩,
      added := st.added + 1,
      ids := st.ids ++ [some st.store.nextId],
      errs := st.errs.tail } := by
  simp only [eligStep]
  rw [hef]
  simp only [noErr, add_or_update_event, hfresh, if_pos hh, hfresh, Option.isSome_none,
    Bool.false_eq_true, if_false]
  rfl

theorem eligStep_create_wfail {st : SyncState} {c : Cand}
    (hh : c.dt.hour + 2 ≤ 23)
    (hef : st.errs.headD noErr = ⟨false, false, true⟩)
    (hfresh : find_existing_event false st.store c.title c.dt = none) :
    eligStep st c = .ok { st with
      ids := st.ids ++ [none],
      errs := st.errs.tail } := by
  simp only [eligStep]
  rw [hef]
  simp only [add_or_update_event, hfresh, if_pos hh]
  rfl

theorem eligStep_update_ident {st : SyncState} {c : Cand} {i : Nat}
    (hh : c.dt.hour + 2 ≤ 23)
    (hef : st.errs.headD noErr = noErr)
    (hfound : find_existing_event false st.store c.title c.dt = some (mkEvent c i))
    (hnodup : (st.store.events.map CalEvent.id).Nodup) :
    eligStep st c = .ok { st with
      updated := st.updated + 1,
      ids := st.ids ++ [some i],
      errs := st.errs.tail } := by
  have hmem : mkEvent c i ∈ st.store.events := (find_eq_some_facts hfound).1
  have hmap : ∀ e ∈ st.store.events, (if e.id = i then mkEvent c i else e) = e := by
    intro e he
    by_cases hid : e.id = i
    · rw [if_pos hid]
      exact id_inj_of_nodup hnodup (mkEvent c i) hmem e he (by rw [hid]; rfl)
    · rw [if_neg hid]
  have hstore : updateStore st.store i (mkEvent c i) = st.store := by
    unfold updateStore
    rw [List.map_congr_left hmap]
    rw [List.map_id']
  simp only [eligStep]
  rw [hef]
  simp only [noErr, add_or_update_event, hfound, if_pos hh, Bool.false_eq_true, if_false,
    Option.isSome_some, if_true]
  simp only [mkEvent, endOf] at hstore ⊢
  rw [hstore]

theorem sieve_nil (cs : List Cand) : sieve [] cs = cs := by
  cases cs <;> rfl

theorem find_none_of_noMatch {s : Store} {c : Cand} (h : NoMatch s c) :
    find_existing_event false s c.title c.dt = none :=
  find_eq_none_iff.mpr (fun e he hd hsum => h e he ⟨hd, hsum⟩)

theorem goodCand_bounded {c : Cand} (h : GoodCand c) : BoundedDT c.dt := by
  obtain ⟨_, h2, h3, h4⟩ := h
  exact ⟨by omega, h3, h4⟩

theorem new_event_no_match {c c' : Cand} (hg : GoodCand c) (hg' : GoodCand c')
    (hk : keysDiffer c c') :
    ¬(onDayB c.dt c'.dt = true ∧ c.title = c'.title) := by
  rintro ⟨hday, hsum⟩
  exact hk ⟨hsum, (onDay_iff hg.1 hg'.1 (goodCand_bounded hg)).mp hday⟩

/-- A fresh-store run: every candidate is looked up on a store holding no
match for it, so each one is created (ids counting up) unless its write
fails, in which case it contributes nothing but the run continues. -/
theorem firstRunW : ∀ (cands : List Cand) (ws : List Bool) (st : SyncState),
    st.errs = writeErrsOf ws →
    (∀ c ∈ cands, GoodCand c) →
    (∀ c ∈ cands, NoMatch st.store c) →
    cands.Pairwise keysDiffer →
    cands.foldlM eligStep st = .ok { st with
      store := ⟨st.store.events ++ createdFrom st.store.nextId (sieve ws cands),
        st.store.nextId + (sieve ws cands).length⟩,
      added := st.added + (sieve ws cands).length,
      ids := st.ids ++ idsOutW st.store.nextId ws cands,
      errs := writeErrsOf (ws.drop cands.length) } := by
  intro cands
  induction cands with
  | nil =>
    intro ws st herrs _ _ _
    simp only [List.foldlM_nil, sieve, createdFrom, idsOutW, List.length_nil,
      List.drop_zero, List.append_nil, Nat.add_zero, ← herrs]
    rfl
  | cons c cs ih =>
    intro ws st herrs hg hnm hpw
    have hgc : GoodCand c := hg c (List.mem_cons_self c cs)
    have hfresh : find_existing_event false st.store c.title c.dt = none :=
      find_none_of_noMatch (hnm c (List.mem_cons_self c cs))
    have hnmcs : ∀ w', ∀ c' ∈ cs,
        NoMatch ⟨st.store.events ++ [mkEvent c st.store.nextId], w'⟩ c' := by
      intro w' c' hc' e he
      rcases List.mem_append.mp he with h | h
      · exact hnm c' (List.mem_cons_of_mem c hc') e h
      · rcases List.mem_singleton.mp h with rfl
        exact new_event_no_match hgc (hg c' (List.mem_cons_of_mem c hc'))
          ((List.pairwise_cons.mp hpw).1 c' hc')
    have hgcs : ∀ c' ∈ cs, GoodCand c' := fun c' hc' => hg c' (List.mem_cons_of_mem c hc')
    have hpwcs := (List.pairwise_cons.mp hpw).2
    cases ws with
    | nil =>
      have hef : st.errs.headD noErr = noErr := by rw [herrs]; rfl
      rw [List.foldlM_cons, eligStep_create hgc.2.1 hef hfresh]
      show List.foldlM eligStep _ cs = _
      refine (ih [] _ ?_ hgcs ?_ hpwcs).trans ?_
      · show st.errs.tail = writeErrsOf []
        rw [herrs]
        rfl
      · exact hnmcs _
      · obtain ⟨⟨evs, n⟩, ad, up, pa, inv, ids, errs⟩ := st
        simp only [writeErrsOf, List.map_nil] at herrs
        simp [sieve_nil, sieve, createdFrom, idsOutW, writeErrsOf, herrs,
          Except.ok.injEq, SyncState.mk.injEq, Store.mk.injEq, List.append_assoc,
          Nat.add_comm, Nat.add_left_comm, Nat.add_assoc]
    | cons w ws2 =>
      cases w with
      | false =>
        have hef : st.errs.headD noErr = noErr := by rw [herrs]; rfl
        rw [List.foldlM_cons, eligStep_create hgc.2.1 hef hfresh]
        show List.foldlM eligStep _ cs = _
        refine (ih ws2 _ ?_ hgcs ?_ hpwcs).trans ?_
        · show st.errs.tail = writeErrsOf ws2
          rw [herrs]
          rfl
        · exact hnmcs _
        · obtain ⟨⟨evs, n⟩, ad, up, pa, inv, ids, errs⟩ := st
          simp [sieve, createdFrom, idsOutW, Except.ok.injEq, SyncState.mk.injEq,
            Store.mk.injEq, List.append_assoc, Nat.add_comm, Nat.add_left_comm,
            Nat.add_assoc]
      | true =>
        have hef : st.errs.headD noErr = ⟨false, false, true⟩ := by rw [herrs]; rfl
        rw [List.foldlM_cons, eligStep_create_wfail hgc.2.1 hef hfresh]
        show List.foldlM eligStep _ cs = _
        have hnm2 : ∀ c' ∈ cs, NoMatch st.store c' := fun c' hc' =>
          hnm c' (List.mem_cons_of_mem c hc')
        refine (ih ws2 _ ?_ hgcs ?_ hpwcs).trans ?_
        · show st.errs.tail = writeErrsOf ws2
          rw [herrs]
          rfl
        · exact hnm2
        · obtain ⟨⟨evs, n⟩, ad, up, pa, inv, ids, errs⟩ := st
          simp [sieve, createdFrom, idsOutW, Except.ok.injEq, SyncState.mk.injEq,
            Store.mk.injEq, List.append_assoc, Nat.add_comm, Nat.add_left_comm,
            Nat.add_assoc]

theorem createdFrom_ids (cands : List Cand) : ∀ n : Nat,
    (createdFrom n cands).map CalEvent.id = List.range' n cands.length := by
  induction cands with
  | nil => intro n; rfl
  | cons c cs ih =>
    intro n
    simp only [createdFrom, List.map_cons, List.length_cons, List.range'_succ, ih (n + 1)]
    rfl

theorem find_createdFrom : ∀ (cands : List Cand) (n m : Nat) (c : Cand), c ∈ cands →
    (∀ c' ∈ cands, GoodCand c') → cands.Pairwise keysDiffer →
    ∃ i, find_existing_event false ⟨createdFrom n cands, m⟩ c.title c.dt
      = some (mkEvent c i) := by
  intro cands
  induction cands with
  | nil =>
    intro n m c hc
    cases hc
  | cons c0 cs ih =>
    intro n m c hc hg hpw
    rcases List.mem_cons.mp hc with rfl | hc2
    · refine ⟨n, ?_⟩
      unfold find_existing_event
      rw [if_neg (by simp)]
      have hg0 := hg c (List.mem_cons_self c cs)
      have hself : onDayB (mkEvent c n).start c.dt = true :=
        (onDay_iff hg0.1 hg0.1 (goodCand_bounded hg0)).mpr rfl
      show ((mkEvent c n :: createdFrom (n + 1) cs).filter
        (fun e => onDayB e.start c.dt)).find? (fun e => e.summary == c.title)
          = some (mkEvent c n)
      rw [List.filter_cons, if_pos hself]
      exact List.find?_cons_of_pos _ (by simp [mkEvent])
    · have hg0 : GoodCand c0 := hg c0 (List.mem_cons_self c0 cs)
      have hgc : GoodCand c := hg c (List.mem_cons_of_mem c0 hc2)
      obtain ⟨i, hi⟩ := ih (n + 1) m c hc2
        (fun c' hc' => hg c' (List.mem_cons_of_mem c0 hc')) (List.pairwise_cons.mp hpw).2
      refine ⟨i, ?_⟩
      unfold find_existing_event at hi ⊢
      rw [if_neg (by simp)] at hi ⊢
      show ((mkEvent c0 n :: createdFrom (n + 1) cs).filter
        (fun e => onDayB e.start c.dt)).find? (fun e => e.summary == c.title)
          = some (mkEvent c i)
      rw [List.filter_cons]
      by_cases hday : onDayB (mkEvent c0 n).start c.dt = true
      · rw [if_pos hday]
        have hk := (List.pairwise_cons.mp hpw).1 c hc2
        have hfalse : ((mkEvent c0 n).summary == c.title) = false := by
          simp only [mkEvent, beq_eq_false_iff_ne, ne_eq]
          intro he
          exact hk ⟨he, (onDay_iff hg0.1 hgc.1 (goodCand_bounded hg0)).mp hday⟩
        simp only [List.find?_cons, hfalse]
        exact hi
      · rw [if_neg hday]
        exact hi

/-- A rerun against a store already holding one identical event per
candidate: every candidate is found and replaced by identical values, so
the store never changes and only `updated` counts up. -/
theorem secondRun : ∀ (cands : List Cand) (st : SyncState),
    st.errs = [] →
    (∀ c ∈ cands, GoodCand c) →
    (∀ c ∈ cands, ∃ i,
      find_existing_event false st.store c.title c.dt = some (mkEvent c i)) →
    (st.store.events.map CalEvent.id).Nodup →
    ∃ outIds, cands.foldlM eligStep st = .ok { st with
      updated := st.updated + cands.length,
      ids := st.ids ++ outIds } := by
  intro cands
  induction cands with
  | nil =>
    intro st _ _ _ _
    refine ⟨[], ?_⟩
    simp only [List.foldlM_nil, List.length_nil, Nat.add_zero, List.append_nil]
    rfl
  | cons c cs ih =>
    intro st herrs hg hfind hnodup
    obtain ⟨i, hi⟩ := hfind c (List.mem_cons_self c cs)
    have hef : st.errs.headD noErr = noErr := by rw [herrs]; rfl
    obtain ⟨outIds2, h2⟩ := ih
      { st with
        updated := st.updated + 1
        ids := st.ids ++ [some i]
        errs := st.errs.tail }
      (by show st.errs.tail = []; rw [herrs]; rfl)
      (fun c' hc' => hg c' (List.mem_cons_of_mem c hc'))
      (fun c' hc' => hfind c' (List.mem_cons_of_mem c hc'))
      hnodup
    refine ⟨some i :: outIds2, ?_⟩
    rw [List.foldlM_cons, eligStep_update_ident (hg c (List.mem_cons_self c cs)).2.1
      hef hi hnodup]
    show List.foldlM eligStep _ cs = _
    rw [h2]
    obtain ⟨⟨evs, n⟩, ad, up, pa, inv, ids, errs⟩ := st
    simp only [List.tail_nil] at herrs ⊢
    simp [herrs, Except.ok.injEq, SyncState.mk.injEq, List.append_assoc,
      Nat.add_comm, Nat.add_left_comm, Nat.add_assoc]

/-! ### From the race loop to the candidate fold -/

theorem processSession_eq_eligOf (now : PyDateTime) (r : Race) (ty : String)
    (st : SyncState)
    (hel : ∀ sess, r.getSession ty = some sess → EligSession now sess) :
    processSession now r st ty =
      match eligOf now r ty with
      | none => .ok st
      | some c => eligStep st c := by
  unfold processSession eligOf
  cases hget : r.getSession ty with
  | none => rfl
  | some sess =>
    by_cases hde : sess.date = "" ∨ sess.time = ""
    · simp [hde]
    · push_neg at hde
      obtain ⟨dt, hparse, _, _, hlt⟩ := hel sess hget hde.1 hde.2
      simp [hde.1, hde.2, hparse, hlt]

theorem sessionsFold_eq (now : PyDateTime) (r : Race) :
    ∀ (tys : List String) (st : SyncState),
      (∀ ty ∈ tys, ∀ sess, r.getSession ty = some sess → EligSession now sess) →
      tys.foldlM (processSession now r) st
        = (tys.filterMap (eligOf now r)).foldlM eligStep st := by
  intro tys
  induction tys with
  | nil => intro st _; rfl
  | cons ty tys ih =>
    intro st hel
    rw [List.foldlM_cons, processSession_eq_eligOf now r ty st
      (fun sess h => hel ty (List.mem_cons_self ty tys) sess h)]
    rw [List.filterMap_cons]
    have htail : ∀ ty2 ∈ tys, ∀ sess, r.getSession ty2 = some sess →
        EligSession now sess :=
      fun ty2 h2 => hel ty2 (List.mem_cons_of_mem ty h2)
    cases ho : eligOf now r ty with
    | none =>
      show tys.foldlM (processSession now r) st = _
      exact ih st htail
    | some c =>
      rw [List.foldlM_cons]
      show (do
        let init ← eligStep st c
        List.foldlM (processSession now r) init tys) = _
      cases he : eligStep st c with
      | error e => rfl
      | ok st1 =>
        show List.foldlM (processSession now r) st1 tys = _
        exact ih st1 htail

theorem racesFold_eq (now : PyDateTime) : ∀ (races : List Race) (st : SyncState),
    (∀ r ∈ races, EligRace now r) →
    races.foldlM (processRace now) st = (allCands now races).foldlM eligStep st := by
  intro races
  induction races with
  | nil => intro st _; rfl
  | cons r rs ih =>
    intro st hel
    rw [List.foldlM_cons]
    have h1 : processRace now st r = (raceEligCands now r).foldlM eligStep st := by
      unfold processRace raceEligCands
      exact sessionsFold_eq now r sessionTypes st
        (fun ty hty sess hs => hel r (List.mem_cons_self r rs) ty hty sess hs)
    rw [h1, show allCands now (r :: rs) = raceEligCands now r ++ allCands now rs from
      List.flatMap_cons r rs (raceEligCands now), List.foldlM_append]
    cases hres : (raceEligCands now r).foldlM eligStep st with
    | error e => rfl
    | ok st1 =>
      show rs.foldlM (processRace now) st1 = _
      exact ih st1 (fun r2 h2 => hel r2 (List.mem_cons_of_mem r h2))

theorem eligOf_some {now : PyDateTime} {r : Race} {ty : String} {c : Cand}
    (h : eligOf now r ty = some c) :
    ∃ sess dt, r.getSession ty = some sess ∧ sess.date ≠ "" ∧ sess.time ≠ "" ∧
      parse_f1_datetime sess.date sess.time = some dt ∧ pyLt dt now = .ok false ∧
      c.dt = dt := by
  unfold eligOf at h
  split at h
  · exact Option.noConfusion h
  rename_i sess hget
  split at h
  · exact Option.noConfusion h
  rename_i hde
  push_neg at hde
  split at h
  · exact Option.noConfusion h
  rename_i dt hparse
  split at h
  · rename_i hlt
    simp only [Option.some.injEq] at h
    exact ⟨sess, dt, hget, hde.1, hde.2, hparse, hlt, by rw [← h]⟩
  · exact Option.noConfusion h

theorem allCands_good {now : PyDateTime} {races : List Race}
    (hel : ∀ r ∈ races, EligRace now r) :
    ∀ c ∈ allCands now races, GoodCand c := by
  intro c hc
  obtain ⟨r, hr, hcr⟩ := List.mem_flatMap.mp hc
  obtain ⟨ty, hty, ho⟩ := List.mem_filterMap.mp hcr
  obtain ⟨sess, dt, hget, hdne, htne, hparse, hlt, hcdt⟩ := eligOf_some ho
  obtain ⟨dt2, hparse2, htz, hhour, _⟩ := hel r hr ty hty sess hget hdne htne
  rw [hparse] at hparse2
  have hdt : dt = dt2 := by injection hparse2
  have hb := parse_bounds hparse
  refine ⟨?_, ?_, ?_, ?_⟩
  · show c.dt.tz = some 0
    rw [hcdt, hdt]
    exact htz
  · show c.dt.hour + 2 ≤ 23
    rw [hcdt, hdt]
    exact hhour
  · show c.dt.minute ≤ 59
    rw [hcdt]
    exact hb.2.1
  · show c.dt.second ≤ 59
    rw [hcdt]
    exact hb.2.2

theorem idsOutW_nil : ∀ (cands : List Cand) (n : Nat),
    idsOutW n [] cands = someIdsFrom n cands := by
  intro cands
  induction cands with
  | nil => intro n; rfl
  | cons c cs ih =>
    intro n
    simp only [idsOutW, someIdsFrom, ih (n + 1)]

/-! ### C1: idempotence of the reconciliation pass -/

/-- C1: with no external interference (no remote failures), reconciling N
eligible candidates against an empty store adds all N (added=N,
updated=0); running the identical pass again finds every event, replaces
it by identical field values (the remote store is bit-for-bit unchanged)
and reports added=0, updated=N. -/
theorem reconcile_idempotent (now : PyDateTime) (races : List Race)
    (hne : races ≠ [])
    (hel : ∀ r ∈ races, EligRace now r)
    (hpw : (allCands now races).Pairwise keysDiffer) :
    ∃ store1 ids2,
      sync_f1_schedule now races ⟨[], 0⟩ [] =
        .ok ⟨some ⟨races.length, (allCands now races).length, 0, 0, 0⟩, store1,
          someIdsFrom 0 (allCands now races)⟩ ∧
      sync_f1_schedule now races store1 [] =
        .ok ⟨some ⟨races.length, 0, (allCands now races).length, 0, 0⟩, store1, ids2⟩ := by
  have hgood := allCands_good hel
  have h1 := racesFold_eq now races (initSyncState ⟨[], 0⟩ []) hel
  simp only [initSyncState] at h1
  have h2 := firstRunW (allCands now races) [] (initSyncState ⟨[], 0⟩ []) rfl hgood
    (fun c _ e he => absurd he (List.not_mem_nil e)) hpw
  simp only [initSyncState, List.nil_append, Nat.zero_add, idsOutW_nil, sieve_nil,
    List.drop_nil, writeErrsOf, List.map_nil] at h2
  have hfind : ∀ c ∈ allCands now races, ∃ i,
      find_existing_event false
        ⟨createdFrom 0 (allCands now races), (allCands now races).length⟩
        c.title c.dt = some (mkEvent c i) :=
    fun c hc => find_createdFrom (allCands now races) 0 (allCands now races).length
      c hc hgood hpw
  have hnodup : ((createdFrom 0 (allCands now races)).map CalEvent.id).Nodup := by
    rw [createdFrom_ids]
    exact List.nodup_range' 0 (allCands now races).length
  have h3 := racesFold_eq now races
    (initSyncState ⟨createdFrom 0 (allCands now races), (allCands now races).length⟩ [])
    hel
  obtain ⟨outIds, h4⟩ := secondRun (allCands now races)
    (initSyncState ⟨createdFrom 0 (allCands now races), (allCands now races).length⟩ [])
    rfl hgood hfind hnodup
  simp only [initSyncState] at h3 h4
  refine ⟨⟨createdFrom 0 (allCands now races), (allCands now races).length⟩, outIds,
    ?_, ?_⟩
  · unfold sync_f1_schedule
    rw [if_neg hne]
    rw [show List.foldlM (processRace now) (initSyncState ⟨[], 0⟩ []) races
      = List.foldlM (processRace now) ⟨⟨[], 0⟩, 0, 0, 0, 0, [], []⟩ races from rfl]
    rw [h1, h2]
  · unfold sync_f1_schedule
    rw [if_neg hne]
    rw [show List.foldlM (processRace now)
      (initSyncState ⟨createdFrom 0 (allCands now races),
        (allCands now races).length⟩ []) races
      = List.foldlM (processRace now)
        ⟨⟨createdFrom 0 (allCands now races), (allCands now races).length⟩,
          0, 0, 0, 0, [], []⟩ races from rfl]
    rw [h3, h4]
    simp only [List.nil_append, Nat.zero_add]

/-- C1 witness: the idempotence theorem at a concrete race with two
future sessions. -/
theorem reconcile_idempotent_witness :
    ∃ store1 ids2,
      sync_f1_schedule cNow [wRace] ⟨[], 0⟩ [] =
        .ok ⟨some ⟨[wRace].length, (allCands cNow [wRace]).length, 0, 0, 0⟩, store1,
          someIdsFrom 0 (allCands cNow [wRace])⟩ ∧
      sync_f1_schedule cNow [wRace] store1 [] =
        .ok ⟨some ⟨[wRace].length, 0, (allCands cNow [wRace]).length, 0, 0⟩, store1,
          ids2⟩ := by
  refine reconcile_idempotent cNow [wRace] (List.cons_ne_nil _ _) ?_ (by decide)
  intro r hr
  rw [List.mem_singleton] at hr
  subst hr
  intro ty hty sess hsess
  simp only [sessionTypes, List.mem_cons, List.not_mem_nil, or_false] at hty
  rcases hty with rfl | rfl | rfl | rfl
  · rw [show wRace.getSession "race" = some ⟨"2025-03-16", "04:00:00Z"⟩ from rfl]
      at hsess
    injection hsess with hs
    subst hs
    intro _ _
    exact ⟨⟨2025, 3, 16, 4, 0, 0, some 0⟩, by decide, rfl, by decide, by decide⟩
  · rw [show wRace.getSession "qualy" = some ⟨"2025-03-15", "05:00:00Z"⟩ from rfl]
      at hsess
    injection hsess with hs
    subst hs
    intro _ _
    exact ⟨⟨2025, 3, 15, 5, 0, 0, some 0⟩, by decide, rfl, by decide, by decide⟩
  · exact Option.noConfusion
      ((show wRace.getSession "sprintRace" = none from rfl) ▸ hsess)
  · exact Option.noConfusion
      ((show wRace.getSession "sprintQualy" = none from rfl) ▸ hsess)

/-! ### C4: per-candidate remote failures -/

/-- C4 counterexample: when the remote lookups fail for the only eligible
candidate (both the loop's check and the one inside the create-or-replace
call) but the write succeeds, the candidate is treated as new, an event
id is produced and `added` is incremented — contradicting the claim that
a lookup failure never increments `added` or `updated`. -/
theorem lookup_failure_still_counts_counterexample :
    (sync_f1_schedule cNow [oneRace] ⟨[], 0⟩ [⟨true, true, false⟩]).map
      (fun res => (res.summary, res.eventIds))
      = .ok (some ⟨1, 1, 0, 0, 0⟩, [some 0]) := by
  decide

/-- C4 (amended): a remote WRITE failure for one candidate neither
increments `added` nor `updated` and does not abort the remaining
candidates: when the create fails for exactly one of three eligible
candidates (fresh store, lookups healthy), the summary shows added=2, the
failing candidate yields no event id, and the other two are created
normally. -/
theorem write_failure_partial (now : PyDateTime) (r1 r2 r3 : Race) (k : Fin 3)
    (hel : ∀ r ∈ [r1, r2, r3], EligRace now r)
    (c1 c2 c3 : Cand)
    (hc : allCands now [r1, r2, r3] = [c1, c2, c3])
    (hpw : (allCands now [r1, r2, r3]).Pairwise keysDiffer) :
    ∃ store1,
      sync_f1_schedule now [r1, r2, r3] ⟨[], 0⟩
          (writeErrsOf [decide (k.val = 0), decide (k.val = 1), decide (k.val = 2)])
        = .ok ⟨some ⟨3, 2, 0, 0, 0⟩, store1,
            (List.range 3).map (fun j => if j = k.val then none
              else some (if j < k.val then j else j - 1))⟩ ∧
      store1 = ⟨createdFrom 0 ([c1, c2, c3].eraseIdx k.val), 2⟩ := by
  have hgood := allCands_good hel
  rw [hc] at hgood hpw
  have h1 := racesFold_eq now [r1, r2, r3]
    (initSyncState ⟨[], 0⟩
      (writeErrsOf [decide (k.val = 0), decide (k.val = 1), decide (k.val = 2)])) hel
  rw [hc] at h1
  simp only [initSyncState] at h1
  have h2 := firstRunW [c1, c2, c3]
    [decide (k.val = 0), decide (k.val = 1), decide (k.val = 2)]
    (initSyncState ⟨[], 0⟩
      (writeErrsOf [decide (k.val = 0), decide (k.val = 1), decide (k.val = 2)]))
    rfl hgood (fun c _ e he => absurd he (List.not_mem_nil e)) hpw
  simp only [initSyncState, List.nil_append, Nat.zero_add] at h2
  have hsync : sync_f1_schedule now [r1, r2, r3] ⟨[], 0⟩
      (writeErrsOf [decide (k.val = 0), decide (k.val = 1), decide (k.val = 2)])
      = .ok ⟨some ⟨3,
          (sieve [decide (k.val = 0), decide (k.val = 1), decide (k.val = 2)]
            [c1, c2, c3]).length, 0, 0, 0⟩,
          ⟨createdFrom 0 (sieve [decide (k.val = 0), decide (k.val = 1),
              decide (k.val = 2)] [c1, c2, c3]),
            (sieve [decide (k.val = 0), decide (k.val = 1), decide (k.val = 2)]
              [c1, c2, c3]).length⟩,
          idsOutW 0 [decide (k.val = 0), decide (k.val = 1), decide (k.val = 2)]
            [c1, c2, c3]⟩ := by
    unfold sync_f1_schedule
    rw [if_neg (List.cons_ne_nil _ _)]
    rw [show List.foldlM (processRace now)
      (initSyncState ⟨[], 0⟩
        (writeErrsOf [decide (k.val = 0), decide (k.val = 1), decide (k.val = 2)]))
      [r1, r2, r3]
      = List.foldlM (processRace now)
        ⟨⟨[], 0⟩, 0, 0, 0, 0, [],
          writeErrsOf [decide (k.val = 0), decide (k.val = 1), decide (k.val = 2)]⟩
        [r1, r2, r3] from rfl]
    rw [h1, h2]
    rfl
  refine ⟨_, ?_, rfl⟩
  rw [hsync]
  fin_cases k <;> rfl

/-- C4 witness: the amended partial-failure schema at three concrete
races with the middle create failing. -/
theorem write_failure_partial_witness :
    ∃ store1,
      sync_f1_schedule cNow [oneRace, twoRace, threeRace] ⟨[], 0⟩
          (writeErrsOf [false, true, false])
        = .ok ⟨some ⟨3, 2, 0, 0, 0⟩, store1, [some 0, none, some 1]⟩ := by
  have hel : ∀ r ∈ [oneRace, twoRace, threeRace], EligRace cNow r := by
    intro r hr ty hty sess hsess
    simp only [List.mem_cons, List.not_mem_nil, or_false] at hr
    simp only [sessionTypes, List.mem_cons, List.not_mem_nil, or_false] at hty
    rcases hr with rfl | rfl | rfl
    · rcases hty with rfl | rfl | rfl | rfl
      · rw [show oneRace.getSession "race" = some ⟨"2025-05-25", "13:00:00Z"⟩ from rfl]
          at hsess
        injection hsess with hs
        subst hs
        intro _ _
        exact ⟨⟨2025, 5, 25, 13, 0, 0, some 0⟩, by decide, rfl, by decide, by decide⟩
      · exact Option.noConfusion hsess
      · exact Option.noConfusion hsess
      · exact Option.noConfusion hsess
    · rcases hty with rfl | rfl | rfl | rfl
      · rw [show twoRace.getSession "race" = some ⟨"2025-07-06", "14:00:00Z"⟩ from rfl]
          at hsess
        injection hsess with hs
        subst hs
        intro _ _
        exact ⟨⟨2025, 7, 6, 14, 0, 0, some 0⟩, by decide, rfl, by decide, by decide⟩
      · exact Option.noConfusion hsess
      · exact Option.noConfusion hsess
      · exact Option.noConfusion hsess
    · rcases hty with rfl | rfl | rfl | rfl
      · rw [show threeRace.getSession "race" = some ⟨"2025-09-07", "13:00:00Z"⟩ from rfl]
          at hsess
        injection hsess with hs
        subst hs
        intro _ _
        exact ⟨⟨2025, 9, 7, 13, 0, 0, some 0⟩, by decide, rfl, by decide, by decide⟩
      · exact Option.noConfusion hsess
      · exact Option.noConfusion hsess
      · exact Option.noConfusion hsess
  obtain ⟨s1, h, _⟩ := write_failure_partial cNow oneRace twoRace threeRace 1 hel
    _ _ _ rfl (by decide)
  exact ⟨s1, h⟩

/-! ### C2: the dedup invariant -/

theorem storeInv_update {s : Store} {c : Cand} {f : CalEvent}
    (hinv : StoreInv s) (htz : c.dt.tz = some 0) (hb : BoundedDT c.dt)
    (hfind : find_existing_event false s c.title c.dt = some f) :
    StoreInv (updateStore s f.id (mkEvent c f.id)) := by
  obtain ⟨hfields, hnodup, hded⟩ := hinv
  obtain ⟨hmem, hday, hsum⟩ := find_eq_some_facts hfind
  have hfb := hfields f hmem
  have hsame : civilDay f.start = civilDay c.dt := (onDay_iff hfb.1 htz hfb.2.1).mp hday
  have hids : (s.events.map (fun e => if e.id = f.id then mkEvent c f.id else e)).map
      CalEvent.id = s.events.map CalEvent.id := by
    rw [List.map_map]
    apply List.map_congr_left
    intro e _
    by_cases hid : e.id = f.id
    · simp [Function.comp, hid, mkEvent]
    · simp [Function.comp, hid]
  refine ⟨?_, ?_, ?_⟩
  · intro e he
    obtain ⟨e0, he0, rfl⟩ := List.mem_map.mp he
    by_cases hid : e0.id = f.id
    · rw [if_pos hid]
      exact ⟨htz, hb, by simpa [mkEvent, updateStore] using hfb.2.2⟩
    · rw [if_neg hid]
      have := hfields e0 he0
      exact ⟨this.1, this.2.1, this.2.2⟩
  · show ((s.events.map _).map CalEvent.id).Nodup
    rw [hids]
    exact hnodup
  · show (s.events.map _).Pairwise _
    rw [List.pairwise_map]
    refine List.Pairwise.imp_of_mem ?_ hded
    intro a b ha hb2 hR
    by_cases hia : a.id = f.id <;> by_cases hib : b.id = f.id
    · have ha2 : a = f := id_inj_of_nodup hnodup a ha f hmem (by rw [hia])
      have hb3 : b = f := id_inj_of_nodup hnodup b hb2 f hmem (by rw [hib])
      rw [ha2, hb3] at hR
      exact absurd ⟨rfl, rfl⟩ hR
    · rw [if_pos hia, if_neg hib]
      have ha2 : a = f := id_inj_of_nodup hnodup a ha f hmem (by rw [hia])
      rw [ha2] at hR
      rintro ⟨h1, h2⟩
      simp only [mkEvent] at h1 h2
      exact hR ⟨hsum.trans h1, hsame.trans h2⟩
    · rw [if_neg hia, if_pos hib]
      have hb3 : b = f := id_inj_of_nodup hnodup b hb2 f hmem (by rw [hib])
      rw [hb3] at hR
      rintro ⟨h1, h2⟩
      simp only [mkEvent] at h1 h2
      exact hR ⟨h1.trans hsum.symm, h2.trans hsame.symm⟩
    · rw [if_neg hia, if_neg hib]
      exact hR

theorem storeInv_create {s : Store} {c : Cand}
    (hinv : StoreInv s) (htz : c.dt.tz = some 0) (hb : BoundedDT c.dt)
    (hfind : find_existing_event false s c.title c.dt = none) :
    StoreInv ⟨s.events ++ [mkEvent c s.nextId], s.nextId + 1⟩ := by
  obtain ⟨hfields, hnodup, hded⟩ := hinv
  have hnew := find_eq_none_iff.mp hfind
  refine ⟨?_, ?_, ?_⟩
  · intro e he
    rcases List.mem_append.mp he with h | h
    · have hf := hfields e h
      refine ⟨hf.1, hf.2.1, ?_⟩
      show e.id < s.nextId + 1
      have := hf.2.2
      omega
    · rcases List.mem_singleton.mp h with rfl
      refine ⟨htz, hb, ?_⟩
      show s.nextId < s.nextId + 1
      omega
  · show ((s.events ++ [mkEvent c s.nextId]).map CalEvent.id).Nodup
    rw [List.map_append]
    refine List.Nodup.append hnodup (by simp) ?_
    intro a h1 h2
    obtain ⟨e, he, rfl⟩ := List.mem_map.mp h1
    simp only [List.map_cons, List.map_nil, List.mem_singleton, mkEvent] at h2
    have := (hfields e he).2.2
    omega
  · show ((s.events ++ [mkEvent c s.nextId]).Pairwise _)
    rw [List.pairwise_append]
    refine ⟨hded, by simp, ?_⟩
    intro a ha b hbm
    rcases List.mem_singleton.mp hbm with rfl
    rintro ⟨h1, h2⟩
    have hab := hfields a ha
    have hdayb : onDayB a.start c.dt = true :=
      (onDay_iff hab.1 htz hab.2.1).mpr (by simpa [mkEvent] using h2)
    exact hnew a ha hdayb (by simpa [mkEvent] using h1)

theorem eligStep_inv {st st' : SyncState} {c : Cand}
    (hinv : StoreInv st.store) (htz : c.dt.tz = some 0) (hb : BoundedDT c.dt)
    (hef : st.errs.headD noErr = noErr)
    (h : eligStep st c = .ok st') :
    StoreInv st'.store ∧ st'.errs = st.errs.tail := by
  simp only [eligStep] at h
  rw [hef] at h
  simp only [noErr, add_or_update_event] at h
  by_cases hh : c.dt.hour + 2 ≤ 23
  · rw [if_pos hh] at h
    cases hfind : find_existing_event false st.store c.title c.dt with
    | some f =>
      simp only [hfind, Bool.false_eq_true, if_false, Option.isSome_some, if_true] at h
      cases h
      constructor
      · show StoreInv (updateStore st.store f.id _)
        have := storeInv_update hinv htz hb hfind
        simpa [mkEvent, endOf] using this
      · rfl
    | none =>
      simp only [hfind, Bool.false_eq_true, if_false, Option.isSome_none] at h
      cases h
      constructor
      · show StoreInv ⟨st.store.events ++ [_], st.store.nextId + 1⟩
        have := storeInv_create hinv htz hb hfind
        simpa [mkEvent, endOf] using this
      · rfl
  · rw [if_neg hh] at h
    exact Except.noConfusion h

theorem processSession_inv {now : PyDateTime} {r : Race} (hr : UTCRace r) {ty : String}
    (hty : ty ∈ sessionTypes) {st st' : SyncState}
    (hinv : StoreInv st.store) (herr : st.errs = [])
    (h : processSession now r st ty = .ok st') :
    StoreInv st'.store ∧ st'.errs = [] := by
  unfold processSession at h
  split at h
  · cases h
    exact ⟨hinv, herr⟩
  rename_i sess hget
  split at h
  · cases h
    exact ⟨hinv, herr⟩
  split at h
  · cases h
    exact ⟨hinv, herr⟩
  rename_i dt hparse
  split at h
  · exact Except.noConfusion h
  · cases h
    exact ⟨hinv, herr⟩
  · have htz : dt.tz = some 0 := hr ty hty sess hget dt hparse
    have hb := parse_bounds hparse
    have hef : st.errs.headD noErr = noErr := by rw [herr]; rfl
    have hres := eligStep_inv hinv htz hb hef h
    refine ⟨hres.1, ?_⟩
    rw [hres.2, herr]
    rfl

theorem foldlM_except_inv {σ α : Type} (f : σ → α → Except Unit σ) (P : σ → Prop) :
    ∀ (l : List α) (s s2 : σ),
      (∀ a ∈ l, ∀ t t2, P t → f t a = .ok t2 → P t2) →
      P s → l.foldlM f s = .ok s2 → P s2 := by
  intro l
  induction l with
  | nil =>
    intro s s2 _ hP h
    rw [List.foldlM_nil] at h
    cases h
    exact hP
  | cons a l ih =>
    intro s s2 hstep hP h
    rw [List.foldlM_cons] at h
    cases hf : f s a with
    | error e =>
      rw [hf] at h
      exact Except.noConfusion h
    | ok t =>
      rw [hf] at h
      exact ih t s2 (fun b hb => hstep b (List.mem_cons_of_mem a hb))
        (hstep a (List.mem_cons_self a l) s t hP hf) h

theorem sync_inv (now : PyDateTime) (races : List Race) (store0 : Store)
    (hutc : ∀ r ∈ races, UTCRace r) (hs : StoreInv store0) :
    ∀ res, sync_f1_schedule now races store0 [] = .ok res → StoreInv res.store := by
  intro res h
  unfold sync_f1_schedule at h
  split at h
  · cases h
    exact hs
  cases hfold : races.foldlM (processRace now) (initSyncState store0 []) with
  | error e =>
    rw [hfold] at h
    exact Except.noConfusion h
  | ok st =>
    rw [hfold] at h
    cases h
    have hstep : ∀ r ∈ races, ∀ t t2, (StoreInv t.store ∧ t.errs = []) →
        processRace now t r = .ok t2 → StoreInv t2.store ∧ t2.errs = [] := by
      intro r hr t t2 hP hrun
      exact foldlM_except_inv (processSession now r)
        (fun u => StoreInv u.store ∧ u.errs = []) sessionTypes t t2
        (fun ty hty u u2 hPu h2 => processSession_inv (hutc r hr) hty hPu.1 hPu.2 h2)
        hP hrun
    exact (foldlM_except_inv (processRace now)
      (fun u => StoreInv u.store ∧ u.errs = []) races (initSyncState store0 []) st
      hstep ⟨hs, rfl⟩ hfold).1

/-- C2: with a healthy remote (no injected failures) and feed sessions
carrying the UTC designator, reconciliation preserves the dedup
invariant: starting from any store satisfying it (including one
pre-seeded with an event of matching title and day), after one pass — and
after a second pass on the result — no two events share both their title
and their calendar day. -/
theorem dedup_invariant (now : PyDateTime) (races : List Race) (s0 : Store)
    (hutc : ∀ r ∈ races, UTCRace r) (hs0 : StoreInv s0) :
    ∀ res, sync_f1_schedule now races s0 [] = .ok res →
      Dedup res.store ∧
      ∀ res2, sync_f1_schedule now races res.store [] = .ok res2 →
        Dedup res2.store := by
  intro res h
  have h1 := sync_inv now races s0 hutc hs0 res h
  exact ⟨h1.2.2, fun res2 h2 => (sync_inv now races res.store hutc h1 res2 h2).2.2⟩

/-- C2 witness: the dedup theorem applied to a store pre-seeded with one
event of matching title and calendar day, across two passes. -/
theorem dedup_invariant_witness :
    Dedup updatedSeededStore ∧ Dedup updatedSeededStore := by
  have hutc : ∀ r ∈ [wRace], UTCRace r := by
    intro r hr
    rw [List.mem_singleton] at hr
    subst hr
    intro ty hty sess hsess
    simp only [sessionTypes, List.mem_cons, List.not_mem_nil, or_false] at hty
    rcases hty with rfl | rfl | rfl | rfl
    · rw [show wRace.getSession "race" = some ⟨"2025-03-16", "04:00:00Z"⟩ from rfl]
        at hsess
      injection hsess with hs
      subst hs
      intro dt hdt
      rw [show parse_f1_datetime "2025-03-16" "04:00:00Z"
        = some ⟨2025, 3, 16, 4, 0, 0, some 0⟩ from rfl] at hdt
      injection hdt with hd
      rw [← hd]
    · rw [show wRace.getSession "qualy" = some ⟨"2025-03-15", "05:00:00Z"⟩ from rfl]
        at hsess
      injection hsess with hs
      subst hs
      intro dt hdt
      rw [show parse_f1_datetime "2025-03-15" "05:00:00Z"
        = some ⟨2025, 3, 15, 5, 0, 0, some 0⟩ from rfl] at hdt
      injection hdt with hd
      rw [← hd]
    · exact Option.noConfusion
        ((show wRace.getSession "sprintRace" = none from rfl) ▸ hsess)
    · exact Option.noConfusion
        ((show wRace.getSession "sprintQualy" = none from rfl) ▸ hsess)
  have h := dedup_invariant cNow [wRace] seededStore hutc (by decide)
    ⟨some ⟨1, 1, 1, 0, 0⟩, updatedSeededStore, [some 0, some 1]⟩ (by decide)
  exact ⟨h.1, h.2 ⟨some ⟨1, 0, 2, 0, 0⟩, updatedSeededStore, [some 0, some 1]⟩
    (by decide)⟩
